import Mathlib

/-!
Verification of `discord-message-deleter` (src/src/index.ts) against its
natural-language specification.

The source is a single TypeScript class `DiscordMessageDeleter` plus a
top-level `run` wrapper.  We embed it shallowly:

* The remote HTTP API is an oracle: a list of `SearchResp` (responses the
  search endpoint will give, in order) and a list of `DeleteResp` (responses
  the delete endpoint will give, in order).  Each outbound request consumes
  the head of the corresponding list.
* Real-time waits, log lines, backup writes and outbound requests are
  recorded as an explicit event trace (`Event`).  The formatted log text and
  the floating-point progress percentage are presentation details; the log
  events carry the structured data instead.
* The retry loops in `fetchMessages` / `deleteMessage` recurse on the
  remaining response list, and the main `while (true)` loop takes explicit
  fuel; a result of `none` means the modelled oracle ran out (the real
  program would still be retrying / looping).
* Mutable fields of the class become explicit state (`Stats`, the cursor
  `beforeMessageId`).
* The configuration fields are declared `string` in TypeScript, but the
  call site (lines 294-297) passes `process.env.X!` whose non-null
  assertion performs no runtime check, so `undefined` can flow in.  We
  therefore model each configuration field as `Option String`; `none` is
  JavaScript `undefined`.  JavaScript `===` between a message's string id
  and a possibly-undefined field is `cfgField = some id`; serialization of
  a possibly-undefined value by `URLSearchParams` is `jsStr` (JavaScript
  stringifies `undefined` to the literal text "undefined").
-/

namespace MessageDeleter

/-- Source `interface MessageAuthor` (index.ts lines 8-11). -/
structure MessageAuthor where
  id : String
  username : Option String
deriving DecidableEq, Repr

/-- An attachment record as used by `saveMessageContent` (line 118):
only `url` / `proxy_url` are read. -/
structure Attachment where
  url : Option String
  proxy_url : Option String
deriving DecidableEq, Repr

/-- Source `interface Message` (index.ts lines 13-21). -/
structure Message where
  id : String
  author : MessageAuthor
  type : Nat
  hit : Bool
  content : Option String
  timestamp : Option String
  attachments : List Attachment
deriving DecidableEq, Repr

/-- Source `interface SearchResponse` (index.ts lines 23-26). -/
structure SearchResponse where
  total_results : Nat
  messages : List (List Message)
deriving DecidableEq, Repr

/-- The mutable counters of `this.stats` (index.ts lines 42-49).
`startTime` is wall-clock only (read by the summary) and is not modelled. -/
structure Stats where
  delCount : Nat
  failCount : Nat
  throttledCount : Nat
  throttledTotalTime : Nat
  grandTotal : Nat
deriving DecidableEq, Repr

/-- Initial `this.stats` value (index.ts lines 42-49): all counters zero. -/
def initStats : Stats := ⟨0, 0, 0, 0, 0⟩

/-- The constructor-provided configuration (index.ts lines 29-32).  Each
field is `Option String`: TypeScript declares `string` but the call site's
non-null assertions (lines 294-296) let `undefined` through unchecked, and
`beforeMessageId` is declared optional. -/
structure Config where
  authToken : Option String
  authorId : Option String
  channelId : Option String
  beforeMessageId0 : Option String
deriving DecidableEq, Repr

/-- The state carried across loop iterations: the mutable counters and the
mutable cursor `this.beforeMessageId`. -/
structure RunState where
  stats : Stats
  beforeMessageId : Option String
deriving DecidableEq, Repr

/-- One response of the search endpoint, as discriminated by
`fetchMessages` (index.ts lines 165-186): status 202 with a `retry_after`
body, status 429 with a `retry_after` body, any other 2xx with a parsed
`SearchResponse` body, or any other non-ok status. -/
inductive SearchResp where
  | s202 (retryAfter : Nat)
  | s429 (retryAfter : Nat)
  | ok (body : SearchResponse)
  | err (status : Nat)
deriving DecidableEq, Repr

/-- One response of the delete endpoint, as discriminated by
`deleteMessage` (index.ts lines 202-213): status 429 with a `retry_after`
body, any 2xx (success), or any other non-ok status. -/
inductive DeleteResp where
  | d429 (retryAfter : Nat)
  | ok
  | err (status : Nat)
deriving DecidableEq, Repr

/-- Structured content of a `writeToLog` call.  The formatted strings of
the source are presentation; each constructor records the data interpolated
into the corresponding template. -/
inductive LogMsg where
  /-- line 167: `Channel not indexed, waiting {ra}ms...` -/
  | channelNotIndexed (ra : Nat)
  /-- line 176: `Rate limit reached! Waiting {ra}ms...` -/
  | rateLimited (ra : Nat)
  /-- line 206: `Rate limit on deletion! Waiting {ra}ms...` -/
  | rateLimitedDelete (ra : Nat)
  /-- line 239: the progress line, carrying `delCount + 1`, `grandTotal`
  and the message id (the percentage is a float-formatting of the same
  two numbers and is not modelled separately). -/
  | progress (n : Nat) (total : Nat) (id : String)
  /-- line 216: `Message {id} successfully deleted!` -/
  | deleted (id : String)
  /-- line 249: `Error deleting message {id}: {error}` (error log). -/
  | deleteError (id : String) (status : Nat)
  /-- line 264: `Error during processing: {error}` (error log). -/
  | processingError (status : Nat)
  /-- line 220: `Starting deletion at ...` together with the constructor's
  session-header lines (lines 70-86). -/
  | sessionStart
deriving DecidableEq, Repr

/-- Observable events of a run, in program order. -/
inductive Event where
  /-- Call of `enforceRateLimit()` (a wall-clock-dependent wait of up
  to `rateLimit` ms; the exact duration depends on real time and is not
  modelled). -/
  | gate
  /-- A GET search request went out (index.ts lines 154-163), carrying the
  auth header value, the channel id of the URL path, the serialized
  `author_id` parameter and the optional `max_id` parameter. -/
  | searchReq (auth : Option String) (channel : Option String)
      (authorId : String) (maxId : Option String)
  /-- The search endpoint answered 2xx and its body was parsed
  (index.ts line 185); carries `total_results`. -/
  | searchOk (total : Nat)
  /-- A DELETE request went out (index.ts lines 197-200). -/
  | deleteReq (auth : Option String) (channel : Option String)
      (messageId : String)
  /-- Wait call `await this.wait(ms)` with the given duration. -/
  | waitEv (ms : Nat)
  /-- A `writeToLog(message, isError)` call. -/
  | logEv (m : LogMsg) (isError : Bool)
  /-- Call of `saveMessageContent(message)`: appended the backup record for this
  message (index.ts lines 107-125). -/
  | backup (m : Message)
  /-- Execution of the latch branch (index.ts lines 226-229): the
  assignment `this.stats.grandTotal = result.total_results` together with
  its `Total messages found` log line. -/
  | latch (total : Nat)
  /-- Call of `printSummary()` (index.ts lines 271-287). -/
  | summary
deriving DecidableEq, Repr

/-- Source `this.delayDelete` (index.ts line 37). -/
def delayDelete : Nat := 1000

/-- Source `this.delaySearch` (index.ts line 38). -/
def delaySearch : Nat := 1500

/-- JavaScript string conversion of a possibly-undefined value, as done by
the `URLSearchParams` record constructor: `String(undefined)` is the text
"undefined". -/
def jsStr (o : Option String) : String := o.getD "undefined"

/-- Lines 158-160: `if (this.beforeMessageId) searchParams.append('max_id',
this.beforeMessageId)`.  JavaScript truthiness: `undefined` and the empty
string are falsy, so the parameter is omitted for both. -/
def maxIdParam (b : Option String) : Option String :=
  match b with
  | none => none
  | some s => if s = "" then none else some s

/-- Lines 173-175 and 203-205: on a 429 response the throttle counters are
bumped by exactly one event and exactly the reported `retry_after`. -/
def throttleBump (st : Stats) (ra : Nat) : Stats :=
  { st with
    throttledCount := st.throttledCount + 1
    throttledTotalTime := st.throttledTotalTime + ra }

/-- The search request event issued by `fetchMessages` for a given cursor
value (index.ts lines 150-163). -/
def searchReqEv (cfg : Config) (before : Option String) : Event :=
  .searchReq cfg.authToken cfg.channelId (jsStr cfg.authorId) (maxIdParam before)

/-- Result of one `fetchMessages()` call: the returned body or the thrown
status, the stats after the call, the events it produced, and the search
responses left unconsumed. -/
structure FetchOut where
  result : Except Nat SearchResponse
  stats : Stats
  events : List Event
  rest : List SearchResp
deriving Repr

/-- Prepend events to a `FetchOut` (used to state the retry equations). -/
def FetchOut.prependEvents (evs : List Event) (out : FetchOut) : FetchOut :=
  { out with events := evs ++ out.events }

/-- Embedding of `fetchMessages()` (index.ts lines 147-186).  Consumes search responses
from the oracle list; recursion is the source's retry-by-recursion on 202
and 429.  `none` means the oracle list ran out mid-retry (the real program
would still be retrying). -/
def fetchMessages (cfg : Config) (before : Option String) (st : Stats) :
    List SearchResp → Option FetchOut
  | [] => none
  | r :: rs =>
    match r with
    | .s202 ra =>
      (fetchMessages cfg before st rs).map
        (FetchOut.prependEvents
          [.gate, searchReqEv cfg before,
           .logEv (.channelNotIndexed ra) false, .waitEv ra])
    | .s429 ra =>
      (fetchMessages cfg before (throttleBump st ra) rs).map
        (FetchOut.prependEvents
          [.gate, searchReqEv cfg before,
           .logEv (.rateLimited ra) false, .waitEv ra])
    | .ok body =>
      some ⟨.ok body, st,
        [.gate, searchReqEv cfg before, .searchOk body.total_results], rs⟩
    | .err status =>
      some ⟨.error status, st, [.gate, searchReqEv cfg before], rs⟩

/-- Result of one `deleteMessage()` call: success or the thrown status, the
stats and cursor after the call, the events produced, and the delete
responses left unconsumed. -/
structure DelOut where
  result : Except Nat Unit
  stats : Stats
  before : Option String
  events : List Event
  rest : List DeleteResp
deriving Repr

/-- Prepend events to a `DelOut` (used to state the retry equation). -/
def DelOut.prependEvents (evs : List Event) (out : DelOut) : DelOut :=
  { out with events := evs ++ out.events }

/-- Embedding of `deleteMessage(messageId)` (index.ts lines 188-217).  On 429: bump the
throttle counters, wait, retry identically.  On any 2xx: set
`this.beforeMessageId = messageId` and log success.  On any other status:
throw (the cursor is left unchanged, line 215 is not reached). -/
def deleteMessage (cfg : Config) (messageId : String) (st : Stats)
    (before : Option String) : List DeleteResp → Option DelOut
  | [] => none
  | r :: rs =>
    match r with
    | .d429 ra =>
      (deleteMessage cfg messageId (throttleBump st ra) before rs).map
        (DelOut.prependEvents
          [.gate, .deleteReq cfg.authToken cfg.channelId messageId,
           .logEv (.rateLimitedDelete ra) false, .waitEv ra])
    | .ok =>
      some ⟨.ok (), st, some messageId,
        [.gate, .deleteReq cfg.authToken cfg.channelId messageId,
         .logEv (.deleted messageId) false], rs⟩
    | .err status =>
      some ⟨.error status, st, before,
        [.gate, .deleteReq cfg.authToken cfg.channelId messageId], rs⟩

/-- The per-message body of the inner `for` loop (index.ts lines 234-253).
Skips type-3 messages (line 235) and messages failing the author/hit check
(line 237); otherwise logs progress, writes the backup, attempts deletion,
and on success bumps `delCount` and waits `delayDelete`, while on a thrown
deletion error it logs the error and bumps `failCount`. -/
def processMessage (cfg : Config) (m : Message) (rs : RunState)
    (ds : List DeleteResp) : Option (RunState × List DeleteResp × List Event) :=
  if m.type = 3 then some (rs, ds, [])
  else if cfg.authorId = some m.author.id ∧ m.hit = true then
    match deleteMessage cfg m.id rs.stats rs.beforeMessageId ds with
    | none => none
    | some out =>
      match out.result with
      | .ok _ =>
        some (⟨{ out.stats with delCount := out.stats.delCount + 1 }, out.before⟩,
          out.rest,
          .logEv (.progress (rs.stats.delCount + 1) rs.stats.grandTotal m.id) false
            :: .backup m :: out.events ++ [.waitEv delayDelete])
      | .error status =>
        some (⟨{ out.stats with failCount := out.stats.failCount + 1 }, out.before⟩,
          out.rest,
          .logEv (.progress (rs.stats.delCount + 1) rs.stats.grandTotal m.id) false
            :: .backup m :: out.events ++ [.logEv (.deleteError m.id status) true])
  else some (rs, ds, [])

/-- The inner `for (const message of messageGroup)` loop (index.ts
line 234): fold `processMessage` over one group. -/
def processGroup (cfg : Config) :
    List Message → RunState → List DeleteResp →
    Option (RunState × List DeleteResp × List Event)
  | [], rs, ds => some (rs, ds, [])
  | m :: ms, rs, ds =>
    match processMessage cfg m rs ds with
    | none => none
    | some (rs', ds', evs) =>
      match processGroup cfg ms rs' ds' with
      | none => none
      | some (rs'', ds'', evs') => some (rs'', ds'', evs ++ evs')

/-- The outer `for (const messageGroup of result.messages)` loop (index.ts
line 233): fold `processGroup` over the page. -/
def processPage (cfg : Config) :
    List (List Message) → RunState → List DeleteResp →
    Option (RunState × List DeleteResp × List Event)
  | [], rs, ds => some (rs, ds, [])
  | g :: gs, rs, ds =>
    match processGroup cfg g rs ds with
    | none => none
    | some (rs', ds', evs) =>
      match processPage cfg gs rs' ds' with
      | none => none
      | some (rs'', ds'', evs') => some (rs'', ds'', evs ++ evs')

/-- How `deleteMessages()` ended. -/
inductive ExitKind where
  /-- Exit by `break` at line 231: the page reported `total_results === 0`. -/
  | zeroResults
  /-- Exit by `break` at line 259: `delCount >= grandTotal` after a full page. -/
  | reachedTotal
  /-- the `catch` at lines 263-268: an error (thrown by the search path)
  was logged, the summary was printed, and the error was re-thrown. -/
  | fatal (status : Nat)
deriving DecidableEq, Repr

/-- The `while (true)` loop of `deleteMessages()` (index.ts lines 223-260)
together with its surrounding `try`/`catch` (lines 222-268).  `fuel` bounds
the number of iterations modelled; `none` means fuel or the response
oracles ran out. -/
def loop (cfg : Config) :
    Nat → RunState → List SearchResp → List DeleteResp →
    Option (ExitKind × RunState × List Event)
  | 0, _, _, _ => none
  | fuel + 1, rs, ss, ds =>
    match fetchMessages cfg rs.beforeMessageId rs.stats ss with
    | none => none
    | some fo =>
      match fo.result with
      | .error status =>
        some (.fatal status, { rs with stats := fo.stats },
          fo.events ++ [.logEv (.processingError status) true, .summary])
      | .ok body =>
        let st1 : Stats :=
          if fo.stats.grandTotal = 0 then
            { fo.stats with grandTotal := body.total_results }
          else fo.stats
        let latchEvs : List Event :=
          if fo.stats.grandTotal = 0 then [.latch body.total_results] else []
        if body.total_results = 0 then
          some (.zeroResults, ⟨st1, rs.beforeMessageId⟩,
            fo.events ++ latchEvs ++ [.summary])
        else
          match processPage cfg body.messages ⟨st1, rs.beforeMessageId⟩ ds with
          | none => none
          | some (rs', ds', pevs) =>
            if rs'.stats.grandTotal ≤ rs'.stats.delCount then
              some (.reachedTotal, rs',
                fo.events ++ latchEvs ++ pevs
                  ++ [.waitEv delaySearch, .summary])
            else
              match loop cfg fuel rs' fo.rest ds' with
              | none => none
              | some (ex, rsf, evs') =>
                some (ex, rsf,
                  fo.events ++ latchEvs ++ pevs
                    ++ [.waitEv delaySearch] ++ evs')

/-- Embedding of `run()` (index.ts lines 291-306): construct the deleter from the
environment and call `deleteMessages()`.  The constructor (lines 51-56)
only stores the four values — the non-null assertions at the call site are
compile-time-only, so absent environment variables flow through as
`undefined` and no validation of any kind happens before the loop starts.
The constructor's and `deleteMessages`' header logging is the leading
`sessionStart` event. -/
def runMain (env : Config) (fuel : Nat) (ss : List SearchResp)
    (ds : List DeleteResp) : Option (ExitKind × RunState × List Event) :=
  match loop env fuel ⟨initStats, env.beforeMessageId0⟩ ss ds with
  | none => none
  | some (ex, st, tr) => some (ex, st, .logEv .sessionStart false :: tr)

/-- How the awaited `deleteMessages()` promise settled, as seen by the
top-level wrapper. -/
inductive SessionResult where
  /-- normal completion (the summary was printed inside `deleteMessages`). -/
  | completed
  /-- Case where `deleteMessages` re-threw an error carrying this status. -/
  | raised (status : Nat)
deriving DecidableEq, Repr

/-- View of `ExitKind` as seen by the caller of `deleteMessages()`: a `fatal` exit
re-throws (line 267), the two `break` exits resolve normally. -/
def sessionResult (ex : ExitKind) : SessionResult :=
  match ex with
  | .fatal status => .raised status
  | _ => .completed

/-- The process-level wrapper (index.ts lines 308-310):
`run().catch(error => console.error('Fatal error:', error))`.
Returns (whether `Fatal error:` was printed to the console, the process
exit code).  The `.catch` handler logs and returns normally, so the
rejection is handled; no `process.exit` is called on this path, the event
loop drains, and Node terminates with exit code 0 — on the error path just
as on normal completion. -/
def topLevel (r : SessionResult) : Bool × Nat :=
  match r with
  | .completed => (false, 0)
  | .raised _ => (true, 0)

/-- Number of leading 429 responses in a delete-response list (how many
throttle rounds a `deleteMessage` call goes through before its terminal
response). -/
def leading429 : List DeleteResp → Nat
  | .d429 _ :: rs => leading429 rs + 1
  | _ => 0

/-- Sum of the `retry_after` values of the leading 429 responses. -/
def leading429Time : List DeleteResp → Nat
  | .d429 ra :: rs => ra + leading429Time rs
  | _ => 0

/-- The terminal (first non-429) response a `deleteMessage` call reaches,
if any. -/
def delOutcome (ds : List DeleteResp) : Option DeleteResp :=
  (ds.drop (leading429 ds)).head?

/-- Whether a message passes both guards of the inner loop (index.ts lines
235-237): not type 3, author matches the configured filter, and the hit
flag is set. -/
def selectedFor (cfg : Config) (m : Message) : Prop :=
  m.type ≠ 3 ∧ cfg.authorId = some m.author.id ∧ m.hit = true

instance (cfg : Config) (m : Message) : Decidable (selectedFor cfg m) := by
  unfold selectedFor; infer_instance

/-- Event discriminator: an outbound search request. -/
def Event.isSearchReq : Event → Bool
  | .searchReq _ _ _ _ => true
  | _ => false

/-- Event discriminator: an outbound delete request. -/
def Event.isDeleteReq : Event → Bool
  | .deleteReq _ _ _ => true
  | _ => false

/-- Event discriminator: any outbound API call. -/
def Event.isCall (e : Event) : Bool := e.isSearchReq || e.isDeleteReq

/-- Event discriminator: a backup record write. -/
def Event.isBackup : Event → Bool
  | .backup _ => true
  | _ => false

/-- The total carried by a `searchOk` event. -/
def Event.searchOkVal : Event → Option Nat
  | .searchOk t => some t
  | _ => none

/-- The total carried by a `latch` event (a `grandTotal` assignment). -/
def Event.latchVal : Event → Option Nat
  | .latch t => some t
  | _ => none

/-- The id carried by a successful-deletion log event (line 216). -/
def Event.deletedId : Event → Option String
  | .logEv (.deleted id) _ => some id
  | _ => none

/-- The cursor value after scanning one event: a successful-deletion log
marks the assignment `this.beforeMessageId = messageId` (line 215). -/
def cursorStep (c : Option String) (e : Event) : Option String :=
  match e.deletedId with
  | some id => some id
  | none => c

/-- The cursor value after scanning a whole trace. -/
def cursorAfter (c : Option String) (evs : List Event) : Option String :=
  evs.foldl cursorStep c

/-- Scan a trace, checking that every outbound search request carries
exactly the configured auth/channel/author values and a `max_id` equal to
`maxIdParam` of the cursor at that point (initial cursor `c`, advanced by
each successful-deletion log). -/
def searchReqsFollowCursor (cfg : Config) : Option String → List Event → Bool
  | _, [] => true
  | c, e :: rest =>
    (match e with
     | .searchReq a ch aid mi =>
       a == cfg.authToken && ch == cfg.channelId
         && aid == jsStr cfg.authorId && mi == maxIdParam c
     | _ => true)
    && searchReqsFollowCursor cfg (cursorStep c e) rest

/-- Scanner state for the termination guard: number of successful
deletions seen so far, the latched `grandTotal` if any, and whether a
search has already completed (so that later search requests are ones the
loop chose to issue after a page check). -/
structure ScanSt where
  dels : Nat
  latched : Option Nat
  seenOk : Bool
deriving DecidableEq, Repr

/-- Advance the termination-guard scanner over one event.  (The scanner
keeps the first latch value it sees; in any actual trace at most one latch
event ever occurs.) -/
def scanStep (s : ScanSt) (e : Event) : ScanSt :=
  match e with
  | .logEv (.deleted _) _ => { s with dels := s.dels + 1 }
  | .latch n => { s with latched := s.latched.or (some n) }
  | .searchOk _ => { s with seenOk := true }
  | _ => s

/-- Scan a trace, checking that every search request issued after some
search already completed happens only while the number of successful
deletions so far is strictly below the latched `grandTotal`: i.e. once
`delCount >= grandTotal` holds at a page boundary, no further search is
issued. -/
def searchGuard : ScanSt → List Event → Bool
  | _, [] => true
  | s, e :: rest =>
    (if e.isSearchReq && s.seenOk then decide (s.dels < s.latched.getD 0)
     else true)
    && searchGuard (scanStep s e) rest

/-- The termination-guard scanner state after a whole trace. -/
def scanAfter (s : ScanSt) (evs : List Event) : ScanSt :=
  evs.foldl scanStep s

/-- Event discriminator: a search completion reporting zero results. -/
def Event.isZeroOk : Event → Bool
  | .searchOk 0 => true
  | _ => false

/-- Scan a trace, checking that no outbound API call occurs after a search
has completed with `total_results = 0`. -/
def zeroStops : Bool → List Event → Bool
  | _, [] => true
  | seen, e :: rest =>
    !(seen && e.isCall) && zeroStops (seen || e.isZeroOk) rest

/-- The `max_id` parameter carried by a search-request event. -/
def Event.searchMaxId : Event → Option (Option String)
  | .searchReq _ _ _ mi => some mi
  | _ => none

/-- A fully-present configuration used for concrete evaluations. -/
def cfgW : Config := ⟨some "tok", some "auth1", some "chan1", none⟩

/-- A concrete message passing all guards of the inner loop. -/
def mOk : Message := ⟨"m1", ⟨"auth1", none⟩, 0, true, some "hello", none, []⟩

/-- A concrete system message (type code 3). -/
def mSys : Message := ⟨"m2", ⟨"auth1", none⟩, 3, true, some "sys", none, []⟩

/-- A concrete message passing the guards but whose id is the empty
string (a falsy JavaScript string). -/
def mEmptyId : Message := ⟨"", ⟨"auth1", none⟩, 0, true, none, none, []⟩

/-- A concrete `processMessage` evaluation: selected message, delete
succeeds at once. -/
def pmRes : RunState × List DeleteResp × List Event :=
  (processMessage cfgW mOk ⟨initStats, none⟩ [DeleteResp.ok]).get (by rfl)

/-- A concrete `processMessage` evaluation: selected message, one 429
throttle round, then a non-retryable 403 on the delete. -/
def pmFailRes : RunState × List DeleteResp × List Event :=
  (processMessage cfgW mOk ⟨initStats, none⟩
    [DeleteResp.d429 50, DeleteResp.err 403]).get (by rfl)

/-- A concrete full run whose first (and only) search reports
`total_results = 0`. -/
def zeroRun : ExitKind × RunState × List Event :=
  (runMain cfgW 1 [SearchResp.ok ⟨0, []⟩] []).get (by rfl)

/-- A concrete run that successfully deletes the empty-id message and then
issues one more search (which reports zero results and ends the run). -/
def emptyIdRun : ExitKind × RunState × List Event :=
  (loop cfgW 2 ⟨initStats, none⟩
    [SearchResp.ok ⟨2, [[mEmptyId]]⟩, SearchResp.ok ⟨0, []⟩]
    [DeleteResp.ok]).get (by rfl)

/-- A concrete run with every configuration value absent (`undefined`). -/
def absentRun : ExitKind × RunState × List Event :=
  (runMain ⟨none, none, none, none⟩ 1 [SearchResp.ok ⟨0, []⟩] []).get (by rfl)

/-- A concrete run whose first search fails with a non-retryable 500. -/
def fatalRun : ExitKind × RunState × List Event :=
  (loop cfgW 1 ⟨initStats, none⟩ [SearchResp.err 500] []).get (by rfl)

/-- A concrete `fetchMessages` evaluation: one 202 round then success. -/
def fetchRes : FetchOut :=
  (fetchMessages cfgW none initStats
    [SearchResp.s202 30, SearchResp.ok ⟨1, []⟩]).get (by rfl)

/-- Invariants of a trace segment produced while processing messages of a
page (no search activity, cursor tracking, `grandTotal` preserved, and
`delCount` advancing together with the successful-deletion log events). -/
def SegInv (rs rs' : RunState) (evs : List Event) : Prop :=
  cursorAfter rs.beforeMessageId evs = rs'.beforeMessageId
  ∧ evs.countP Event.isSearchReq = 0
  ∧ evs.filterMap Event.searchOkVal = []
  ∧ evs.filterMap Event.latchVal = []
  ∧ Event.summary ∉ evs
  ∧ evs.any Event.isZeroOk = false
  ∧ rs'.stats.grandTotal = rs.stats.grandTotal
  ∧ rs'.stats.delCount = rs.stats.delCount + (evs.filterMap Event.deletedId).length

/-! ### Helper lemmas: scanners compose over concatenation -/

theorem cursorAfter_append (c : Option String) (a b : List Event) :
    cursorAfter c (a ++ b) = cursorAfter (cursorAfter c a) b := by
  simp [cursorAfter, List.foldl_append]

theorem cursorAfter_of_no_deleted :
    ∀ (a : List Event) (c : Option String),
      a.filterMap Event.deletedId = [] → cursorAfter c a = c := by
  intro a
  induction a with
  | nil => intro c _; rfl
  | cons e rest ih =>
    intro c h
    rw [List.filterMap_cons] at h
    cases he : Event.deletedId e with
    | none =>
      rw [he] at h
      have : cursorStep c e = c := by simp [cursorStep, he]
      simpa [cursorAfter, List.foldl_cons, this] using ih c h
    | some id => rw [he] at h; simp at h

theorem searchReqsFollowCursor_append (cfg : Config) :
    ∀ (a : List Event) (c : Option String) (b : List Event),
      searchReqsFollowCursor cfg c (a ++ b) =
        (searchReqsFollowCursor cfg c a
          && searchReqsFollowCursor cfg (cursorAfter c a) b) := by
  intro a
  induction a with
  | nil => intro c b; simp [searchReqsFollowCursor, cursorAfter]
  | cons e rest ih =>
    intro c b
    simp only [List.cons_append, searchReqsFollowCursor, List.append_eq, ih,
      cursorAfter, List.foldl_cons, Bool.and_assoc]

theorem countP_cons_zero {p : Event → Bool} {e : Event} {rest : List Event}
    (h : (e :: rest).countP p = 0) : p e = false ∧ rest.countP p = 0 := by
  rw [List.countP_cons] at h
  constructor
  · by_contra hc
    simp only [Bool.not_eq_false] at hc
    rw [hc] at h; simp at h
  · omega

theorem searchReqsFollowCursor_of_no_searchReq (cfg : Config) :
    ∀ (a : List Event) (c : Option String),
      a.countP Event.isSearchReq = 0 → searchReqsFollowCursor cfg c a = true := by
  intro a
  induction a with
  | nil => intro c _; rfl
  | cons e rest ih =>
    intro c h
    obtain ⟨h1, h2⟩ := countP_cons_zero h
    cases e with
    | searchReq a' ch aid mi => simp [Event.isSearchReq] at h1
    | _ =>
      simp only [searchReqsFollowCursor, Bool.true_and]
      exact ih _ h2

theorem scanAfter_append (s : ScanSt) (a b : List Event) :
    scanAfter s (a ++ b) = scanAfter (scanAfter s a) b := by
  simp [scanAfter, List.foldl_append]

theorem searchGuard_append :
    ∀ (a : List Event) (s : ScanSt) (b : List Event),
      searchGuard s (a ++ b) =
        (searchGuard s a && searchGuard (scanAfter s a) b) := by
  intro a
  induction a with
  | nil => intro s b; simp [searchGuard, scanAfter]
  | cons e rest ih =>
    intro s b
    simp only [List.cons_append, searchGuard, List.append_eq, ih,
      scanAfter, List.foldl_cons, Bool.and_assoc]

theorem searchGuard_of_no_searchReq :
    ∀ (a : List Event) (s : ScanSt),
      a.countP Event.isSearchReq = 0 → searchGuard s a = true := by
  intro a
  induction a with
  | nil => intro s _; rfl
  | cons e rest ih =>
    intro s h
    obtain ⟨h1, h2⟩ := countP_cons_zero h
    simp only [searchGuard, h1, Bool.false_and, Bool.true_and, if_neg]
    exact ih (scanStep s e) h2

theorem scanAfter_eq :
    ∀ (a : List Event) (s : ScanSt),
      scanAfter s a =
        ⟨s.dels + (a.filterMap Event.deletedId).length,
         Option.or s.latched (a.filterMap Event.latchVal).head?,
         s.seenOk || a.any (fun e => (Event.searchOkVal e).isSome)⟩ := by
  intro a
  induction a with
  | nil =>
    intro s
    rcases s with ⟨d, l, k⟩
    simp [scanAfter]
  | cons e rest ih =>
    intro s
    rw [scanAfter, List.foldl_cons, ← scanAfter, ih (scanStep s e)]
    rcases s with ⟨d, l, k⟩
    cases e with
    | logEv m isErr =>
      cases m with
      | deleted id =>
        simp [scanStep, Event.deletedId, Event.latchVal, Event.searchOkVal]
        omega
      | _ => simp [scanStep, Event.deletedId, Event.latchVal, Event.searchOkVal]
    | latch n =>
      cases l <;>
        simp [scanStep, Event.deletedId, Event.latchVal, Event.searchOkVal,
          Option.or]
    | searchOk t =>
      simp [scanStep, Event.deletedId, Event.latchVal, Event.searchOkVal]
    | _ =>
      simp [scanStep, Event.deletedId, Event.latchVal, Event.searchOkVal]

theorem zeroStops_append :
    ∀ (a : List Event) (seen : Bool) (b : List Event),
      zeroStops seen (a ++ b) =
        (zeroStops seen a && zeroStops (seen || a.any Event.isZeroOk) b) := by
  intro a
  induction a with
  | nil => intro seen b; simp [zeroStops]
  | cons e rest ih =>
    intro seen b
    simp only [List.cons_append, zeroStops, List.append_eq, ih, List.any_cons,
      Bool.and_assoc, Bool.or_assoc]

theorem zeroStops_of_no_zero :
    ∀ (a : List Event), a.any Event.isZeroOk = false → zeroStops false a = true := by
  intro a
  induction a with
  | nil => intro _; rfl
  | cons e rest ih =>
    intro h
    simp only [List.any_cons, Bool.or_eq_false_iff] at h
    simp only [zeroStops, Bool.false_and, Bool.not_false, Bool.true_and,
      Bool.false_or, h.1]
    exact ih h.2

/-! ### Helper lemmas: `fetchMessages` -/

theorem filterMap_eq_nil_any {α β : Type} (f : α → Option β) :
    ∀ l : List α, l.filterMap f = [] → (l.any fun x => (f x).isSome) = false := by
  intro l
  induction l with
  | nil => intro _; rfl
  | cons x xs ih =>
    intro h
    rw [List.filterMap_cons] at h
    cases hx : f x with
    | none => rw [hx] at h; simpa [hx] using ih h
    | some y => rw [hx] at h; simp at h

theorem fetch_trace (cfg : Config) (b : Option String) :
    ∀ (ss : List SearchResp) (st : Stats) (out : FetchOut),
      fetchMessages cfg b st ss = some out →
      (∀ body, out.result = Except.ok body →
        out.events.filterMap Event.searchOkVal = [body.total_results])
      ∧ (∀ s, out.result = Except.error s →
        out.events.filterMap Event.searchOkVal = [])
      ∧ out.events.filterMap Event.deletedId = []
      ∧ out.events.filterMap Event.latchVal = []
      ∧ out.events.countP Event.isBackup = 0
      ∧ out.events.countP Event.isDeleteReq = 0
      ∧ Event.summary ∉ out.events
      ∧ (∀ e ∈ out.events, e.isSearchReq = true → e = searchReqEv cfg b) := by
  intro ss
  induction ss with
  | nil => intro st out h; simp [fetchMessages] at h
  | cons r rs ih =>
    intro st out h
    cases r with
    | s202 ra =>
      cases hin : fetchMessages cfg b st rs with
      | none => rw [fetchMessages, hin] at h; simp at h
      | some out' =>
        rw [fetchMessages, hin] at h
        simp only [Option.map_some', Option.some.injEq] at h
        subst h
        obtain ⟨i1, i2, i3, i4, i5, i6, i7, i8⟩ := ih st out' hin
        refine ⟨fun body hb => ?_, fun s hs => ?_, ?_, ?_, ?_, ?_, ?_, ?_⟩
        · simp only [FetchOut.prependEvents] at hb ⊢
          simp [searchReqEv, Event.searchOkVal, i1 body hb]
        · simp only [FetchOut.prependEvents] at hs ⊢
          simp [searchReqEv, Event.searchOkVal, i2 s hs]
        · simp [FetchOut.prependEvents, searchReqEv, Event.deletedId, i3]
        · simp [FetchOut.prependEvents, searchReqEv, Event.latchVal, i4]
        · simp [FetchOut.prependEvents, searchReqEv, Event.isBackup,
            List.countP_append, i5]
        · simp [FetchOut.prependEvents, searchReqEv, Event.isDeleteReq,
            List.countP_append, i6]
        · simp [FetchOut.prependEvents, searchReqEv, i7]
        · intro e he hre
          simp only [FetchOut.prependEvents] at he
          rcases List.mem_append.mp he with hpre | hrec
          · simp only [List.mem_cons, List.not_mem_nil, or_false] at hpre
            rcases hpre with rfl | rfl | rfl | rfl <;>
              first
                | rfl
                | simp [Event.isSearchReq] at hre
          · exact i8 e hrec hre
    | s429 ra =>
      cases hin : fetchMessages cfg b (throttleBump st ra) rs with
      | none => rw [fetchMessages, hin] at h; simp at h
      | some out' =>
        rw [fetchMessages, hin] at h
        simp only [Option.map_some', Option.some.injEq] at h
        subst h
        obtain ⟨i1, i2, i3, i4, i5, i6, i7, i8⟩ := ih (throttleBump st ra) out' hin
        refine ⟨fun body hb => ?_, fun s hs => ?_, ?_, ?_, ?_, ?_, ?_, ?_⟩
        · simp only [FetchOut.prependEvents] at hb ⊢
          simp [searchReqEv, Event.searchOkVal, i1 body hb]
        · simp only [FetchOut.prependEvents] at hs ⊢
          simp [searchReqEv, Event.searchOkVal, i2 s hs]
        · simp [FetchOut.prependEvents, searchReqEv, Event.deletedId, i3]
        · simp [FetchOut.prependEvents, searchReqEv, Event.latchVal, i4]
        · simp [FetchOut.prependEvents, searchReqEv, Event.isBackup,
            List.countP_append, i5]
        · simp [FetchOut.prependEvents, searchReqEv, Event.isDeleteReq,
            List.countP_append, i6]
        · simp [FetchOut.prependEvents, searchReqEv, i7]
        · intro e he hre
          simp only [FetchOut.prependEvents] at he
          rcases List.mem_append.mp he with hpre | hrec
          · simp only [List.mem_cons, List.not_mem_nil, or_false] at hpre
            rcases hpre with rfl | rfl | rfl | rfl <;>
              first
                | rfl
                | simp [Event.isSearchReq] at hre
          · exact i8 e hrec hre
    | ok body =>
      rw [fetchMessages] at h
      simp only [Option.some.injEq] at h
      subst h
      refine ⟨fun body' hb => ?_, fun s hs => ?_, ?_, ?_, ?_, ?_, ?_, ?_⟩
      · simp only [Except.ok.injEq] at hb
        subst hb
        simp [searchReqEv, Event.searchOkVal]
      · simp at hs
      · simp [searchReqEv, Event.deletedId]
      · simp [searchReqEv, Event.latchVal]
      · simp [searchReqEv, Event.isBackup]
      · simp [searchReqEv, Event.isDeleteReq]
      · simp [searchReqEv]
      · intro e he hre
        simp only [List.mem_cons, List.not_mem_nil, or_false] at he
        rcases he with rfl | rfl | rfl <;>
          first
            | rfl
            | simp [Event.isSearchReq] at hre
    | err status =>
      rw [fetchMessages] at h
      simp only [Option.some.injEq] at h
      subst h
      refine ⟨fun body' hb => ?_, fun s hs => ?_, ?_, ?_, ?_, ?_, ?_, ?_⟩
      · simp at hb
      · simp [searchReqEv, Event.searchOkVal]
      · simp [searchReqEv, Event.deletedId]
      · simp [searchReqEv, Event.latchVal]
      · simp [searchReqEv, Event.isBackup]
      · simp [searchReqEv, Event.isDeleteReq]
      · simp [searchReqEv]
      · intro e he hre
        simp only [List.mem_cons, List.not_mem_nil, or_false] at he
        rcases he with rfl | rfl <;>
          first
            | rfl
            | simp [Event.isSearchReq] at hre

theorem fetch_stats (cfg : Config) (b : Option String) :
    ∀ (ss : List SearchResp) (st : Stats) (out : FetchOut),
      fetchMessages cfg b st ss = some out →
      out.stats.delCount = st.delCount ∧ out.stats.failCount = st.failCount
      ∧ out.stats.grandTotal = st.grandTotal := by
  intro ss
  induction ss with
  | nil => intro st out h; simp [fetchMessages] at h
  | cons r rs ih =>
    intro st out h
    cases r with
    | s202 ra =>
      cases hin : fetchMessages cfg b st rs with
      | none => rw [fetchMessages, hin] at h; simp at h
      | some out' =>
        rw [fetchMessages, hin] at h
        simp only [Option.map_some', Option.some.injEq] at h
        subst h
        simpa [FetchOut.prependEvents] using ih st out' hin
    | s429 ra =>
      cases hin : fetchMessages cfg b (throttleBump st ra) rs with
      | none => rw [fetchMessages, hin] at h; simp at h
      | some out' =>
        rw [fetchMessages, hin] at h
        simp only [Option.map_some', Option.some.injEq] at h
        subst h
        simpa [FetchOut.prependEvents, throttleBump] using
          ih (throttleBump st ra) out' hin
    | ok body =>
      rw [fetchMessages] at h
      simp only [Option.some.injEq] at h
      subst h
      exact ⟨rfl, rfl, rfl⟩
    | err status =>
      rw [fetchMessages] at h
      simp only [Option.some.injEq] at h
      subst h
      exact ⟨rfl, rfl, rfl⟩

theorem fetch_mem (cfg : Config) (b : Option String) :
    ∀ (ss : List SearchResp) (st : Stats) (out : FetchOut),
      fetchMessages cfg b st ss = some out →
      (∀ s, out.result = Except.error s → SearchResp.err s ∈ ss)
      ∧ (∀ r ∈ out.rest, r ∈ ss) := by
  intro ss
  induction ss with
  | nil => intro st out h; simp [fetchMessages] at h
  | cons r rs ih =>
    intro st out h
    cases r with
    | s202 ra =>
      cases hin : fetchMessages cfg b st rs with
      | none => rw [fetchMessages, hin] at h; simp at h
      | some out' =>
        rw [fetchMessages, hin] at h
        simp only [Option.map_some', Option.some.injEq] at h
        subst h
        obtain ⟨i1, i2⟩ := ih st out' hin
        refine ⟨fun s hs => ?_, fun x hx => ?_⟩
        · exact List.mem_cons_of_mem _ (i1 s hs)
        · exact List.mem_cons_of_mem _ (i2 x hx)
    | s429 ra =>
      cases hin : fetchMessages cfg b (throttleBump st ra) rs with
      | none => rw [fetchMessages, hin] at h; simp at h
      | some out' =>
        rw [fetchMessages, hin] at h
        simp only [Option.map_some', Option.some.injEq] at h
        subst h
        obtain ⟨i1, i2⟩ := ih (throttleBump st ra) out' hin
        refine ⟨fun s hs => ?_, fun x hx => ?_⟩
        · exact List.mem_cons_of_mem _ (i1 s hs)
        · exact List.mem_cons_of_mem _ (i2 x hx)
    | ok body =>
      rw [fetchMessages] at h
      simp only [Option.some.injEq] at h
      subst h
      refine ⟨fun s hs => by simp at hs, fun x hx => List.mem_cons_of_mem _ hx⟩
    | err status =>
      rw [fetchMessages] at h
      simp only [Option.some.injEq] at h
      subst h
      refine ⟨fun s hs => ?_, fun x hx => List.mem_cons_of_mem _ hx⟩
      simp only [Except.error.injEq] at hs
      subst hs
      exact List.mem_cons_self _ _

theorem fetch_head (cfg : Config) (b : Option String) :
    ∀ (ss : List SearchResp) (st : Stats) (out : FetchOut),
      fetchMessages cfg b st ss = some out →
      ∃ tail, out.events = Event.gate :: searchReqEv cfg b :: tail := by
  intro ss
  induction ss with
  | nil => intro st out h; simp [fetchMessages] at h
  | cons r rs ih =>
    intro st out h
    cases r with
    | s202 ra =>
      cases hin : fetchMessages cfg b st rs with
      | none => rw [fetchMessages, hin] at h; simp at h
      | some out' =>
        rw [fetchMessages, hin] at h
        simp only [Option.map_some', Option.some.injEq] at h
        subst h
        exact ⟨_, rfl⟩
    | s429 ra =>
      cases hin : fetchMessages cfg b (throttleBump st ra) rs with
      | none => rw [fetchMessages, hin] at h; simp at h
      | some out' =>
        rw [fetchMessages, hin] at h
        simp only [Option.map_some', Option.some.injEq] at h
        subst h
        exact ⟨_, rfl⟩
    | ok body =>
      rw [fetchMessages] at h
      simp only [Option.some.injEq] at h
      subst h
      exact ⟨_, rfl⟩
    | err status =>
      rw [fetchMessages] at h
      simp only [Option.some.injEq] at h
      subst h
      exact ⟨_, rfl⟩

theorem any_isSome_of_filterMap {α β : Type} (f : α → Option β) :
    ∀ (l : List α) (y : β) (ys : List β), l.filterMap f = y :: ys →
      (l.any fun x => (f x).isSome) = true := by
  intro l
  induction l with
  | nil => intro y ys h; simp at h
  | cons x xs ih =>
    intro y ys h
    rw [List.filterMap_cons] at h
    cases hx : f x with
    | none =>
      rw [hx] at h
      simp only [List.any_cons, hx]
      rw [ih _ _ h]
      simp
    | some z => simp [List.any_cons, hx]

theorem fetch_scan (cfg : Config) (b : Option String)
    (ss : List SearchResp) (st : Stats) (out : FetchOut)
    (h : fetchMessages cfg b st ss = some out) :
    ∀ s : ScanSt,
      (∀ body, out.result = Except.ok body →
        scanAfter s out.events = { s with seenOk := true })
      ∧ (∀ e, out.result = Except.error e → scanAfter s out.events = s) := by
  intro s
  obtain ⟨i1, i2, i3, i4, _, _, _, _⟩ := fetch_trace cfg b ss st out h
  constructor
  · intro body hb
    rw [scanAfter_eq]
    rw [i3, i4]
    rw [any_isSome_of_filterMap Event.searchOkVal out.events _ _ (i1 body hb)]
    rcases s with ⟨d, l, k⟩
    simp
  · intro e he
    rw [scanAfter_eq]
    rw [i3, i4]
    rw [filterMap_eq_nil_any Event.searchOkVal out.events (i2 e he)]
    rcases s with ⟨d, l, k⟩
    simp

theorem fetch_guard (cfg : Config) (b : Option String) :
    ∀ (ss : List SearchResp) (st : Stats) (out : FetchOut),
      fetchMessages cfg b st ss = some out →
      ∀ s : ScanSt, (s.seenOk = true → s.dels < s.latched.getD 0) →
      searchGuard s out.events = true := by
  intro ss
  induction ss with
  | nil => intro st out h; simp [fetchMessages] at h
  | cons r rs ih =>
    intro st out h s hs
    cases r with
    | s202 ra =>
      cases hin : fetchMessages cfg b st rs with
      | none => rw [fetchMessages, hin] at h; simp at h
      | some out' =>
        rw [fetchMessages, hin] at h
        simp only [Option.map_some', Option.some.injEq] at h
        subst h
        have hrec := ih st out' hin s hs
        simp only [FetchOut.prependEvents]
        rw [searchGuard_append]
        have h2 : scanAfter s [Event.gate, searchReqEv cfg b,
            Event.logEv (LogMsg.channelNotIndexed ra) false, Event.waitEv ra] = s := by
          simp [scanAfter, scanStep, searchReqEv]
        rw [h2, hrec]
        cases hk : s.seenOk
        · simp [searchGuard, scanStep, Event.isSearchReq, searchReqEv, hk]
        · simp [searchGuard, scanStep, Event.isSearchReq, searchReqEv, hk, hs hk]
    | s429 ra =>
      cases hin : fetchMessages cfg b (throttleBump st ra) rs with
      | none => rw [fetchMessages, hin] at h; simp at h
      | some out' =>
        rw [fetchMessages, hin] at h
        simp only [Option.map_some', Option.some.injEq] at h
        subst h
        have hrec := ih (throttleBump st ra) out' hin s hs
        simp only [FetchOut.prependEvents]
        rw [searchGuard_append]
        have h2 : scanAfter s [Event.gate, searchReqEv cfg b,
            Event.logEv (LogMsg.rateLimited ra) false, Event.waitEv ra] = s := by
          simp [scanAfter, scanStep, searchReqEv]
        rw [h2, hrec]
        cases hk : s.seenOk
        · simp [searchGuard, scanStep, Event.isSearchReq, searchReqEv, hk]
        · simp [searchGuard, scanStep, Event.isSearchReq, searchReqEv, hk, hs hk]
    | ok body =>
      rw [fetchMessages] at h
      simp only [Option.some.injEq] at h
      subst h
      cases hk : s.seenOk
      · simp [searchGuard, scanStep, Event.isSearchReq, searchReqEv, hk]
      · simp [searchGuard, scanStep, Event.isSearchReq, searchReqEv, hk, hs hk]
    | err status =>
      rw [fetchMessages] at h
      simp only [Option.some.injEq] at h
      subst h
      cases hk : s.seenOk
      · simp [searchGuard, scanStep, Event.isSearchReq, searchReqEv, hk]
      · simp [searchGuard, scanStep, Event.isSearchReq, searchReqEv, hk, hs hk]

theorem fetch_zero (cfg : Config) (b : Option String) :
    ∀ (ss : List SearchResp) (st : Stats) (out : FetchOut),
      fetchMessages cfg b st ss = some out →
      zeroStops false out.events = true
      ∧ (∀ body, out.result = Except.ok body →
          out.events.any Event.isZeroOk = (body.total_results == 0))
      ∧ (∀ e, out.result = Except.error e →
          out.events.any Event.isZeroOk = false) := by
  intro ss
  induction ss with
  | nil => intro st out h; simp [fetchMessages] at h
  | cons r rs ih =>
    intro st out h
    cases r with
    | s202 ra =>
      cases hin : fetchMessages cfg b st rs with
      | none => rw [fetchMessages, hin] at h; simp at h
      | some out' =>
        rw [fetchMessages, hin] at h
        simp only [Option.map_some', Option.some.injEq] at h
        subst h
        obtain ⟨j1, j2, j3⟩ := ih st out' hin
        simp only [FetchOut.prependEvents]
        rw [zeroStops_append]
        refine ⟨?_, fun body hb => ?_, fun e he => ?_⟩
        · simp [zeroStops, Event.isCall, Event.isSearchReq, Event.isDeleteReq,
            Event.isZeroOk, searchReqEv, j1]
        · simp [Event.isZeroOk, searchReqEv, j2 body hb]
        · simp [Event.isZeroOk, searchReqEv, j3 e he]
    | s429 ra =>
      cases hin : fetchMessages cfg b (throttleBump st ra) rs with
      | none => rw [fetchMessages, hin] at h; simp at h
      | some out' =>
        rw [fetchMessages, hin] at h
        simp only [Option.map_some', Option.some.injEq] at h
        subst h
        obtain ⟨j1, j2, j3⟩ := ih (throttleBump st ra) out' hin
        simp only [FetchOut.prependEvents]
        rw [zeroStops_append]
        refine ⟨?_, fun body hb => ?_, fun e he => ?_⟩
        · simp [zeroStops, Event.isCall, Event.isSearchReq, Event.isDeleteReq,
            Event.isZeroOk, searchReqEv, j1]
        · simp [Event.isZeroOk, searchReqEv, j2 body hb]
        · simp [Event.isZeroOk, searchReqEv, j3 e he]
    | ok body =>
      rw [fetchMessages] at h
      simp only [Option.some.injEq] at h
      subst h
      refine ⟨?_, fun body' hb => ?_, fun e he => ?_⟩
      · simp [zeroStops, Event.isCall, Event.isSearchReq, Event.isDeleteReq,
          Event.isZeroOk, searchReqEv]
      · simp only [Except.ok.injEq] at hb
        subst hb
        cases ht : body.total_results with
        | zero => simp [Event.isZeroOk, searchReqEv, ht]
        | succ n => simp [Event.isZeroOk, searchReqEv, ht]
      · simp at he
    | err status =>
      rw [fetchMessages] at h
      simp only [Option.some.injEq] at h
      subst h
      refine ⟨?_, fun body' hb => ?_, fun e he => ?_⟩
      · simp [zeroStops, Event.isCall, Event.isSearchReq, Event.isDeleteReq,
          Event.isZeroOk, searchReqEv]
      · simp at hb
      · simp [Event.isZeroOk, searchReqEv]

theorem fetch_cursor (cfg : Config) (b : Option String) :
    ∀ (ss : List SearchResp) (st : Stats) (out : FetchOut),
      fetchMessages cfg b st ss = some out →
      searchReqsFollowCursor cfg b out.events = true := by
  intro ss
  induction ss with
  | nil => intro st out h; simp [fetchMessages] at h
  | cons r rs ih =>
    intro st out h
    cases r with
    | s202 ra =>
      cases hin : fetchMessages cfg b st rs with
      | none => rw [fetchMessages, hin] at h; simp at h
      | some out' =>
        rw [fetchMessages, hin] at h
        simp only [Option.map_some', Option.some.injEq] at h
        subst h
        have hrec := ih st out' hin
        simp only [FetchOut.prependEvents]
        rw [searchReqsFollowCursor_append]
        have h2 : cursorAfter b [Event.gate, searchReqEv cfg b,
            Event.logEv (LogMsg.channelNotIndexed ra) false, Event.waitEv ra] = b := by
          simp [cursorAfter, cursorStep, Event.deletedId, searchReqEv]
        rw [h2, hrec]
        simp [searchReqsFollowCursor, cursorStep, Event.deletedId, searchReqEv]
    | s429 ra =>
      cases hin : fetchMessages cfg b (throttleBump st ra) rs with
      | none => rw [fetchMessages, hin] at h; simp at h
      | some out' =>
        rw [fetchMessages, hin] at h
        simp only [Option.map_some', Option.some.injEq] at h
        subst h
        have hrec := ih (throttleBump st ra) out' hin
        simp only [FetchOut.prependEvents]
        rw [searchReqsFollowCursor_append]
        have h2 : cursorAfter b [Event.gate, searchReqEv cfg b,
            Event.logEv (LogMsg.rateLimited ra) false, Event.waitEv ra] = b := by
          simp [cursorAfter, cursorStep, Event.deletedId, searchReqEv]
        rw [h2, hrec]
        simp [searchReqsFollowCursor, cursorStep, Event.deletedId, searchReqEv]
    | ok body =>
      rw [fetchMessages] at h
      simp only [Option.some.injEq] at h
      subst h
      simp [searchReqsFollowCursor, cursorStep, Event.deletedId, searchReqEv]
    | err status =>
      rw [fetchMessages] at h
      simp only [Option.some.injEq] at h
      subst h
      simp [searchReqsFollowCursor, cursorStep, Event.deletedId, searchReqEv]

/-! ### Helper lemmas: `deleteMessage` -/

theorem del_state (cfg : Config) (mid : String) :
    ∀ (ds : List DeleteResp) (st : Stats) (b : Option String) (out : DelOut),
      deleteMessage cfg mid st b ds = some out →
      out.stats.delCount = st.delCount
      ∧ out.stats.failCount = st.failCount
      ∧ out.stats.grandTotal = st.grandTotal
      ∧ out.stats.throttledCount = st.throttledCount + leading429 ds
      ∧ out.stats.throttledTotalTime = st.throttledTotalTime + leading429Time ds
      ∧ (out.result = Except.ok () →
          delOutcome ds = some DeleteResp.ok ∧ out.before = some mid)
      ∧ (∀ s, out.result = Except.error s →
          delOutcome ds = some (DeleteResp.err s) ∧ out.before = b)
      ∧ out.rest = ds.drop (leading429 ds + 1) := by
  intro ds
  induction ds with
  | nil => intro st b out h; simp [deleteMessage] at h
  | cons r rs ih =>
    intro st b out h
    cases r with
    | d429 ra =>
      cases hin : deleteMessage cfg mid (throttleBump st ra) b rs with
      | none => rw [deleteMessage, hin] at h; simp at h
      | some out' =>
        rw [deleteMessage, hin] at h
        simp only [Option.map_some', Option.some.injEq] at h
        subst h
        obtain ⟨j1, j2, j3, j4, j5, j6, j7, j8⟩ := ih (throttleBump st ra) b out' hin
        simp only [DelOut.prependEvents, throttleBump] at j1 j2 j3 j4 j5 j6 j7 j8 ⊢
        refine ⟨j1, j2, j3, ?_, ?_, ?_, ?_, ?_⟩
        · rw [j4]; simp [leading429]; omega
        · rw [j5]; simp [leading429Time]; omega
        · intro hok
          obtain ⟨o1, o2⟩ := j6 hok
          exact ⟨by simpa [delOutcome, leading429] using o1, o2⟩
        · intro s hs
          obtain ⟨o1, o2⟩ := j7 s hs
          exact ⟨by simpa [delOutcome, leading429] using o1, o2⟩
        · rw [j8]; simp [leading429]
    | ok =>
      rw [deleteMessage] at h
      simp only [Option.some.injEq] at h
      subst h
      refine ⟨rfl, rfl, rfl, by simp [leading429], by simp [leading429Time],
        fun _ => ⟨by simp [delOutcome, leading429], rfl⟩, fun s hs => ?_,
        by simp [leading429]⟩
      simp at hs
    | err status =>
      rw [deleteMessage] at h
      simp only [Option.some.injEq] at h
      subst h
      refine ⟨rfl, rfl, rfl, by simp [leading429], by simp [leading429Time],
        fun hok => ?_, fun s hs => ?_, by simp [leading429]⟩
      · simp at hok
      · simp only [Except.error.injEq] at hs
        subst hs
        exact ⟨by simp [delOutcome, leading429], rfl⟩

theorem del_trace (cfg : Config) (mid : String) :
    ∀ (ds : List DeleteResp) (st : Stats) (b : Option String) (out : DelOut),
      deleteMessage cfg mid st b ds = some out →
      (out.result = Except.ok () → out.events.filterMap Event.deletedId = [mid])
      ∧ (∀ s, out.result = Except.error s →
          out.events.filterMap Event.deletedId = [])
      ∧ out.events.filterMap Event.searchOkVal = []
      ∧ out.events.filterMap Event.latchVal = []
      ∧ out.events.countP Event.isBackup = 0
      ∧ out.events.countP Event.isSearchReq = 0
      ∧ 1 ≤ out.events.countP Event.isDeleteReq
      ∧ Event.summary ∉ out.events
      ∧ (∃ tail, out.events =
          Event.gate :: Event.deleteReq cfg.authToken cfg.channelId mid :: tail)
      ∧ out.events.any Event.isZeroOk = false := by
  intro ds
  induction ds with
  | nil => intro st b out h; simp [deleteMessage] at h
  | cons r rs ih =>
    intro st b out h
    cases r with
    | d429 ra =>
      cases hin : deleteMessage cfg mid (throttleBump st ra) b rs with
      | none => rw [deleteMessage, hin] at h; simp at h
      | some out' =>
        rw [deleteMessage, hin] at h
        simp only [Option.map_some', Option.some.injEq] at h
        subst h
        obtain ⟨j1, j2, j3, j4, j5, j6, j7, j8, _, j10⟩ :=
          ih (throttleBump st ra) b out' hin
        simp only [DelOut.prependEvents] at j1 j2 ⊢
        refine ⟨fun hok => ?_, fun s hs => ?_, ?_, ?_, ?_, ?_, ?_, ?_, ⟨_, rfl⟩, ?_⟩
        · simp [Event.deletedId, j1 hok]
        · simp [Event.deletedId, j2 s hs]
        · simp [Event.searchOkVal, j3]
        · simp [Event.latchVal, j4]
        · simp [Event.isBackup, List.countP_append, j5]
        · simp [Event.isSearchReq, List.countP_append, j6]
        · rw [List.countP_append]; omega
        · simp [j8]
        · simp [Event.isZeroOk, j10]
    | ok =>
      rw [deleteMessage] at h
      simp only [Option.some.injEq] at h
      subst h
      refine ⟨fun _ => ?_, fun s hs => ?_, ?_, ?_, ?_, ?_, ?_, ?_, ⟨_, rfl⟩, ?_⟩
      · simp [Event.deletedId]
      · simp at hs
      · simp [Event.searchOkVal]
      · simp [Event.latchVal]
      · simp [Event.isBackup]
      · simp [Event.isSearchReq]
      · simp [Event.isDeleteReq, List.countP_cons]
      · simp
      · simp [Event.isZeroOk]
    | err status =>
      rw [deleteMessage] at h
      simp only [Option.some.injEq] at h
      subst h
      refine ⟨fun hok => ?_, fun s hs => ?_, ?_, ?_, ?_, ?_, ?_, ?_, ⟨_, rfl⟩, ?_⟩
      · simp at hok
      · simp [Event.deletedId]
      · simp [Event.searchOkVal]
      · simp [Event.latchVal]
      · simp [Event.isBackup]
      · simp [Event.isSearchReq]
      · simp [Event.isDeleteReq, List.countP_cons]
      · simp
      · simp [Event.isZeroOk]

theorem del_cursor (cfg : Config) (mid : String) :
    ∀ (ds : List DeleteResp) (st : Stats) (b : Option String) (out : DelOut),
      deleteMessage cfg mid st b ds = some out →
      cursorAfter b out.events = out.before := by
  intro ds
  induction ds with
  | nil => intro st b out h; simp [deleteMessage] at h
  | cons r rs ih =>
    intro st b out h
    cases r with
    | d429 ra =>
      cases hin : deleteMessage cfg mid (throttleBump st ra) b rs with
      | none => rw [deleteMessage, hin] at h; simp at h
      | some out' =>
        rw [deleteMessage, hin] at h
        simp only [Option.map_some', Option.some.injEq] at h
        subst h
        have hrec := ih (throttleBump st ra) b out' hin
        simp only [DelOut.prependEvents]
        rw [cursorAfter_append]
        have h2 : cursorAfter b [Event.gate,
            Event.deleteReq cfg.authToken cfg.channelId mid,
            Event.logEv (LogMsg.rateLimitedDelete ra) false, Event.waitEv ra] = b := by
          simp [cursorAfter, cursorStep, Event.deletedId]
        rw [h2, hrec]
    | ok =>
      rw [deleteMessage] at h
      simp only [Option.some.injEq] at h
      subst h
      simp [cursorAfter, cursorStep, Event.deletedId]
    | err status =>
      rw [deleteMessage] at h
      simp only [Option.some.injEq] at h
      subst h
      simp [cursorAfter, cursorStep, Event.deletedId]

/-! ### Helper lemmas: per-message processing and page folds -/

theorem pm_skip (cfg : Config) (m : Message) (rs : RunState) (ds : List DeleteResp)
    (h : ¬ selectedFor cfg m) : processMessage cfg m rs ds = some (rs, ds, []) := by
  by_cases ht : m.type = 3
  · simp [processMessage, ht]
  · have hc : ¬ (cfg.authorId = some m.author.id ∧ m.hit = true) := by
      intro hc
      exact h ⟨ht, hc.1, hc.2⟩
    simp [processMessage, ht, hc]

theorem pm_sel (cfg : Config) (m : Message) (rs : RunState) (ds : List DeleteResp)
    (hsel : selectedFor cfg m) (rs' : RunState) (ds' : List DeleteResp)
    (evs : List Event)
    (h : processMessage cfg m rs ds = some (rs', ds', evs)) :
    ∃ dout, deleteMessage cfg m.id rs.stats rs.beforeMessageId ds = some dout
      ∧ ds' = dout.rest
      ∧ ((dout.result = Except.ok ()
            ∧ rs' = ⟨{ dout.stats with delCount := dout.stats.delCount + 1 },
                dout.before⟩
            ∧ evs = Event.logEv
                  (LogMsg.progress (rs.stats.delCount + 1) rs.stats.grandTotal m.id)
                  false
                :: Event.backup m :: dout.events ++ [Event.waitEv delayDelete])
        ∨ (∃ s, dout.result = Except.error s
            ∧ rs' = ⟨{ dout.stats with failCount := dout.stats.failCount + 1 },
                dout.before⟩
            ∧ evs = Event.logEv
                  (LogMsg.progress (rs.stats.delCount + 1) rs.stats.grandTotal m.id)
                  false
                :: Event.backup m :: dout.events
                  ++ [Event.logEv (LogMsg.deleteError m.id s) true])) := by
  obtain ⟨ht, ha, hh⟩ := hsel
  rw [processMessage, if_neg ht, if_pos ⟨ha, hh⟩] at h
  cases hd : deleteMessage cfg m.id rs.stats rs.beforeMessageId ds with
  | none => rw [hd] at h; simp at h
  | some dout =>
    rw [hd] at h
    dsimp only at h
    refine ⟨dout, rfl, ?_⟩
    cases hr : dout.result with
    | ok u =>
      rw [hr] at h
      dsimp only at h
      simp only [Option.some.injEq, Prod.mk.injEq] at h
      obtain ⟨h1, h2, h3⟩ := h
      cases u
      exact ⟨h2.symm, Or.inl ⟨rfl, h1.symm, h3.symm⟩⟩
    | error s =>
      rw [hr] at h
      dsimp only at h
      simp only [Option.some.injEq, Prod.mk.injEq] at h
      obtain ⟨h1, h2, h3⟩ := h
      exact ⟨h2.symm, Or.inr ⟨s, rfl, h1.symm, h3.symm⟩⟩

theorem seginv_comp {rs rs' rs'' : RunState} {evs evs' : List Event}
    (h1 : SegInv rs rs' evs) (h2 : SegInv rs' rs'' evs') :
    SegInv rs rs'' (evs ++ evs') := by
  obtain ⟨a1, a2, a3, a4, a5, a6, a7, a8⟩ := h1
  obtain ⟨b1, b2, b3, b4, b5, b6, b7, b8⟩ := h2
  refine ⟨?_, ?_, ?_, ?_, ?_, ?_, ?_, ?_⟩
  · rw [cursorAfter_append, a1, b1]
  · rw [List.countP_append, a2, b2]
  · rw [List.filterMap_append, a3, b3]; rfl
  · rw [List.filterMap_append, a4, b4]; rfl
  · rw [List.mem_append]; rintro (hc | hc)
    · exact a5 hc
    · exact b5 hc
  · rw [List.any_append, a6, b6]; rfl
  · rw [b7, a7]
  · rw [b8, a8, List.filterMap_append, List.length_append]; omega

theorem pm_seginv (cfg : Config) (m : Message) (rs : RunState)
    (ds : List DeleteResp) (rs' : RunState) (ds' : List DeleteResp)
    (evs : List Event)
    (h : processMessage cfg m rs ds = some (rs', ds', evs)) :
    SegInv rs rs' evs := by
  by_cases hsel : selectedFor cfg m
  · obtain ⟨dout, hd, hds, hcase⟩ := pm_sel cfg m rs ds hsel rs' ds' evs h
    obtain ⟨t1, t2, t3, t4, t5, t6, t7, t8, t9, t10⟩ :=
      del_trace cfg m.id ds rs.stats rs.beforeMessageId dout hd
    obtain ⟨s1, s2, s3, s4, s5, s6, s7, s8⟩ :=
      del_state cfg m.id ds rs.stats rs.beforeMessageId dout hd
    have hcur := del_cursor cfg m.id ds rs.stats rs.beforeMessageId dout hd
    rcases hcase with ⟨hok, hrs, hevs⟩ | ⟨s, herr, hrs, hevs⟩
    · subst hrs hevs
      refine ⟨?_, ?_, ?_, ?_, ?_, ?_, ?_, ?_⟩
      · simp only [cursorAfter, List.foldl_cons, List.foldl_append]
        have : cursorStep (cursorStep rs.beforeMessageId
            (Event.logEv (LogMsg.progress (rs.stats.delCount + 1)
              rs.stats.grandTotal m.id) false)) (Event.backup m)
            = rs.beforeMessageId := by
          simp [cursorStep, Event.deletedId]
        rw [this]
        have hc2 : List.foldl cursorStep rs.beforeMessageId dout.events
            = dout.before := hcur
        rw [hc2]
        simp [cursorStep, Event.deletedId]
      · simp [List.countP_append, List.countP_cons, Event.isSearchReq, t6]
      · simp [Event.searchOkVal, t3]
      · simp [Event.latchVal, t4]
      · simp [t8]
      · simp [Event.isZeroOk, t10]
      · simp [s3]
      · simp [Event.deletedId, t1 hok, s1]
    · subst hrs hevs
      refine ⟨?_, ?_, ?_, ?_, ?_, ?_, ?_, ?_⟩
      · simp only [cursorAfter, List.foldl_cons, List.foldl_append]
        have : cursorStep (cursorStep rs.beforeMessageId
            (Event.logEv (LogMsg.progress (rs.stats.delCount + 1)
              rs.stats.grandTotal m.id) false)) (Event.backup m)
            = rs.beforeMessageId := by
          simp [cursorStep, Event.deletedId]
        rw [this]
        have hc2 : List.foldl cursorStep rs.beforeMessageId dout.events
            = dout.before := hcur
        rw [hc2]
        simp [cursorStep, Event.deletedId]
      · simp [List.countP_append, List.countP_cons, Event.isSearchReq, t6]
      · simp [Event.searchOkVal, t3]
      · simp [Event.latchVal, t4]
      · simp [t8]
      · simp [Event.isZeroOk, t10]
      · simp [s3]
      · simp [Event.deletedId, t2 s herr, s1]
  · rw [pm_skip cfg m rs ds hsel] at h
    simp only [Option.some.injEq, Prod.mk.injEq] at h
    obtain ⟨h1, _, h3⟩ := h
    subst h1
    subst h3
    exact ⟨rfl, rfl, rfl, rfl, by simp, rfl, rfl, by simp⟩

theorem pg_seginv (cfg : Config) :
    ∀ (ms : List Message) (rs : RunState) (ds : List DeleteResp)
      (rs' : RunState) (ds' : List DeleteResp) (evs : List Event),
      processGroup cfg ms rs ds = some (rs', ds', evs) → SegInv rs rs' evs := by
  intro ms
  induction ms with
  | nil =>
    intro rs ds rs' ds' evs h
    simp only [processGroup, Option.some.injEq, Prod.mk.injEq] at h
    obtain ⟨h1, _, h3⟩ := h
    subst h1
    subst h3
    exact ⟨rfl, rfl, rfl, rfl, by simp, rfl, rfl, by simp⟩
  | cons m ms ih =>
    intro rs ds rs' ds' evs h
    rw [processGroup] at h
    cases h1 : processMessage cfg m rs ds with
    | none => rw [h1] at h; simp at h
    | some x =>
      obtain ⟨rs1, ds1, evs1⟩ := x
      rw [h1] at h
      dsimp only at h
      cases h2 : processGroup cfg ms rs1 ds1 with
      | none => rw [h2] at h; simp at h
      | some y =>
        obtain ⟨rs2, ds2, evs2⟩ := y
        rw [h2] at h
        dsimp only at h
        simp only [Option.some.injEq, Prod.mk.injEq] at h
        obtain ⟨g1, _, g3⟩ := h
        subst g1
        subst g3
        exact seginv_comp (pm_seginv cfg m rs ds rs1 ds1 evs1 h1)
          (ih rs1 ds1 rs2 ds2 evs2 h2)

theorem pp_seginv (cfg : Config) :
    ∀ (gs : List (List Message)) (rs : RunState) (ds : List DeleteResp)
      (rs' : RunState) (ds' : List DeleteResp) (evs : List Event),
      processPage cfg gs rs ds = some (rs', ds', evs) → SegInv rs rs' evs := by
  intro gs
  induction gs with
  | nil =>
    intro rs ds rs' ds' evs h
    simp only [processPage, Option.some.injEq, Prod.mk.injEq] at h
    obtain ⟨h1, _, h3⟩ := h
    subst h1
    subst h3
    exact ⟨rfl, rfl, rfl, rfl, by simp, rfl, rfl, by simp⟩
  | cons g gs ih =>
    intro rs ds rs' ds' evs h
    rw [processPage] at h
    cases h1 : processGroup cfg g rs ds with
    | none => rw [h1] at h; simp at h
    | some x =>
      obtain ⟨rs1, ds1, evs1⟩ := x
      rw [h1] at h
      dsimp only at h
      cases h2 : processPage cfg gs rs1 ds1 with
      | none => rw [h2] at h; simp at h
      | some y =>
        obtain ⟨rs2, ds2, evs2⟩ := y
        rw [h2] at h
        dsimp only at h
        simp only [Option.some.injEq, Prod.mk.injEq] at h
        obtain ⟨g1, _, g3⟩ := h
        subst g1
        subst g3
        exact seginv_comp (pg_seginv cfg g rs ds rs1 ds1 evs1 h1)
          (ih rs1 ds1 rs2 ds2 evs2 h2)

/-! ### Helper lemmas: the main loop -/

theorem loop_nolatch :
    ∀ (fuel : Nat) (cfg : Config) (rs : RunState) (ss : List SearchResp)
      (ds : List DeleteResp) (ex : ExitKind) (st : RunState) (tr : List Event),
      rs.stats.grandTotal ≠ 0 → loop cfg fuel rs ss ds = some (ex, st, tr) →
      tr.filterMap Event.latchVal = []
      ∧ st.stats.grandTotal = rs.stats.grandTotal := by
  intro fuel
  induction fuel with
  | zero => intro cfg rs ss ds ex st tr hg h; simp [loop] at h
  | succ fuel ih =>
    intro cfg rs ss ds ex st tr hg h
    simp only [loop] at h
    cases hf : fetchMessages cfg rs.beforeMessageId rs.stats ss with
    | none => rw [hf] at h; simp at h
    | some fo =>
      rw [hf] at h
      dsimp only at h
      obtain ⟨f1, f2, f3, f4, f5, f6, f7, f8⟩ :=
        fetch_trace cfg rs.beforeMessageId ss rs.stats fo hf
      obtain ⟨g1, g2, g3⟩ := fetch_stats cfg rs.beforeMessageId ss rs.stats fo hf
      cases hres : fo.result with
      | error status =>
        rw [hres] at h
        dsimp only at h
        simp only [Option.some.injEq, Prod.mk.injEq] at h
        obtain ⟨hex, hst, htr⟩ := h
        subst htr
        refine ⟨?_, ?_⟩
        · simp [List.filterMap_append, f4, Event.latchVal]
        · rw [← hst]
          exact g3
      | ok body =>
        rw [hres] at h
        dsimp only at h
        have hng : ¬ fo.stats.grandTotal = 0 := by rw [g3]; exact hg
        rw [if_neg hng, if_neg hng] at h
        by_cases h0 : body.total_results = 0
        · rw [if_pos h0] at h
          simp only [Option.some.injEq, Prod.mk.injEq] at h
          obtain ⟨hex, hst, htr⟩ := h
          subst htr
          refine ⟨?_, ?_⟩
          · simp [List.filterMap_append, f4, Event.latchVal]
          · rw [← hst]
            exact g3
        · rw [if_neg h0] at h
          cases hp : processPage cfg body.messages ⟨fo.stats, rs.beforeMessageId⟩ ds with
          | none => rw [hp] at h; simp at h
          | some y =>
            obtain ⟨rs', ds', pevs⟩ := y
            rw [hp] at h
            dsimp only at h
            obtain ⟨p1, p2, p3, p4, p5, p6, p7, p8⟩ :=
              pp_seginv cfg body.messages ⟨fo.stats, rs.beforeMessageId⟩ ds rs' ds' pevs hp
            by_cases hge : rs'.stats.grandTotal ≤ rs'.stats.delCount
            · rw [if_pos hge] at h
              simp only [Option.some.injEq, Prod.mk.injEq] at h
              obtain ⟨hex, hst, htr⟩ := h
              subst htr
              refine ⟨?_, ?_⟩
              · simp [List.filterMap_append, f4, p4, Event.latchVal]
              · rw [← hst, p7]
                exact g3
            · rw [if_neg hge] at h
              cases hl : loop cfg fuel rs' fo.rest ds' with
              | none => rw [hl] at h; simp at h
              | some z =>
                obtain ⟨ex', st', tr'⟩ := z
                rw [hl] at h
                dsimp only at h
                simp only [Option.some.injEq, Prod.mk.injEq] at h
                obtain ⟨hex, hst, htr⟩ := h
                subst htr
                have hg' : rs'.stats.grandTotal ≠ 0 := by rw [p7]; exact hng
                obtain ⟨r1, r2⟩ := ih cfg rs' fo.rest ds' ex' st' tr' hg' hl
                refine ⟨?_, ?_⟩
                · simp [List.filterMap_append, f4, p4, r1, Event.latchVal]
                · rw [← hst, r2, p7]
                  exact g3

theorem loop_latch0 :
    ∀ (fuel : Nat) (cfg : Config) (rs : RunState) (ss : List SearchResp)
      (ds : List DeleteResp) (ex : ExitKind) (st : RunState) (tr : List Event),
      rs.stats.grandTotal = 0 → loop cfg fuel rs ss ds = some (ex, st, tr) →
      tr.filterMap Event.latchVal = (tr.filterMap Event.searchOkVal).take 1
      ∧ st.stats.grandTotal = ((tr.filterMap Event.searchOkVal).head?).getD 0 := by
  intro fuel cfg rs ss ds ex st tr hg h
  cases fuel with
  | zero => simp [loop] at h
  | succ fuel =>
    simp only [loop] at h
    cases hf : fetchMessages cfg rs.beforeMessageId rs.stats ss with
    | none => rw [hf] at h; simp at h
    | some fo =>
      rw [hf] at h
      dsimp only at h
      obtain ⟨f1, f2, f3, f4, f5, f6, f7, f8⟩ :=
        fetch_trace cfg rs.beforeMessageId ss rs.stats fo hf
      obtain ⟨g1, g2, g3⟩ := fetch_stats cfg rs.beforeMessageId ss rs.stats fo hf
      have hpos : fo.stats.grandTotal = 0 := by rw [g3]; exact hg
      cases hres : fo.result with
      | error status =>
        rw [hres] at h
        dsimp only at h
        simp only [Option.some.injEq, Prod.mk.injEq] at h
        obtain ⟨hex, hst, htr⟩ := h
        subst htr
        refine ⟨?_, ?_⟩
        · simp [List.filterMap_append, f4, f2 status hres, Event.latchVal,
            Event.searchOkVal]
        · rw [← hst]
          simp [List.filterMap_append, f2 status hres, Event.searchOkVal, hpos]
      | ok body =>
        rw [hres] at h
        dsimp only at h
        rw [if_pos hpos, if_pos hpos] at h
        by_cases h0 : body.total_results = 0
        · rw [if_pos h0] at h
          simp only [Option.some.injEq, Prod.mk.injEq] at h
          obtain ⟨hex, hst, htr⟩ := h
          subst htr
          refine ⟨?_, ?_⟩
          · simp [List.filterMap_append, f4, f1 body hres, Event.latchVal,
              Event.searchOkVal]
          · rw [← hst]
            simp [List.filterMap_append, f1 body hres, Event.searchOkVal,
              Event.latchVal]
        · rw [if_neg h0] at h
          cases hp : processPage cfg body.messages
              ⟨{ fo.stats with grandTotal := body.total_results },
                rs.beforeMessageId⟩ ds with
          | none => rw [hp] at h; simp at h
          | some y =>
            obtain ⟨rs', ds', pevs⟩ := y
            rw [hp] at h
            dsimp only at h
            obtain ⟨p1, p2, p3, p4, p5, p6, p7, p8⟩ :=
              pp_seginv cfg body.messages
                ⟨{ fo.stats with grandTotal := body.total_results },
                  rs.beforeMessageId⟩ ds rs' ds' pevs hp
            by_cases hge : rs'.stats.grandTotal ≤ rs'.stats.delCount
            · rw [if_pos hge] at h
              simp only [Option.some.injEq, Prod.mk.injEq] at h
              obtain ⟨hex, hst, htr⟩ := h
              subst htr
              refine ⟨?_, ?_⟩
              · simp [List.filterMap_append, f4, f1 body hres, p4, p3,
                  Event.latchVal, Event.searchOkVal]
              · rw [← hst, p7]
                simp [List.filterMap_append, f1 body hres, p3, Event.searchOkVal]
            · rw [if_neg hge] at h
              cases hl : loop cfg fuel rs' fo.rest ds' with
              | none => rw [hl] at h; simp at h
              | some z =>
                obtain ⟨ex', st', tr'⟩ := z
                rw [hl] at h
                dsimp only at h
                simp only [Option.some.injEq, Prod.mk.injEq] at h
                obtain ⟨hex, hst, htr⟩ := h
                subst htr
                have hg' : rs'.stats.grandTotal ≠ 0 := by
                  rw [p7]
                  simpa using h0
                obtain ⟨r1, r2⟩ :=
                  loop_nolatch fuel cfg rs' fo.rest ds' ex' st' tr' hg' hl
                refine ⟨?_, ?_⟩
                · simp [List.filterMap_append, f4, f1 body hres, p4, p3, r1,
                    Event.latchVal, Event.searchOkVal]
                · rw [← hst, r2, p7]
                  simp [List.filterMap_append, f1 body hres, p3,
                    Event.searchOkVal]

theorem loop_zero_stops :
    ∀ (fuel : Nat) (cfg : Config) (rs : RunState) (ss : List SearchResp)
      (ds : List DeleteResp) (ex : ExitKind) (st : RunState) (tr : List Event),
      loop cfg fuel rs ss ds = some (ex, st, tr) →
      zeroStops false tr = true := by
  intro fuel
  induction fuel with
  | zero => intro cfg rs ss ds ex st tr h; simp [loop] at h
  | succ fuel ih =>
    intro cfg rs ss ds ex st tr h
    simp only [loop] at h
    cases hf : fetchMessages cfg rs.beforeMessageId rs.stats ss with
    | none => rw [hf] at h; simp at h
    | some fo =>
      rw [hf] at h
      dsimp only at h
      obtain ⟨z1, z2, z3⟩ := fetch_zero cfg rs.beforeMessageId ss rs.stats fo hf
      cases hres : fo.result with
      | error status =>
        rw [hres] at h
        dsimp only at h
        simp only [Option.some.injEq, Prod.mk.injEq] at h
        obtain ⟨hex, hst, htr⟩ := h
        subst htr
        rw [zeroStops_append, z1, z3 status hres]
        simp [zeroStops, Event.isCall, Event.isSearchReq, Event.isDeleteReq]
      | ok body =>
        rw [hres] at h
        dsimp only at h
        by_cases hgt : fo.stats.grandTotal = 0 <;>
          [rw [if_pos hgt, if_pos hgt] at h; rw [if_neg hgt, if_neg hgt] at h] <;>
        · by_cases h0 : body.total_results = 0
          · rw [if_pos h0] at h
            simp only [Option.some.injEq, Prod.mk.injEq] at h
            obtain ⟨hex, hst, htr⟩ := h
            subst htr
            have hz1 : fo.events.any Event.isZeroOk = true := by
              rw [z2 body hres, h0]
              rfl
            simp only [List.append_assoc]
            simp [zeroStops_append, List.any_append, z1, hz1, zeroStops,
              Event.isCall, Event.isZeroOk, Event.isSearchReq, Event.isDeleteReq]
          · rw [if_neg h0] at h
            have hz : fo.events.any Event.isZeroOk = false := by
              rw [z2 body hres]
              simpa using h0
            rcases hp : processPage cfg body.messages _ ds with _ | ⟨rs', ds', pevs⟩
            · rw [hp] at h; simp at h
            · rw [hp] at h
              dsimp only at h
              obtain ⟨p1, p2, p3, p4, p5, p6, p7, p8⟩ := pp_seginv _ _ _ _ _ _ _ hp
              by_cases hge : rs'.stats.grandTotal ≤ rs'.stats.delCount
              · rw [if_pos hge] at h
                simp only [Option.some.injEq, Prod.mk.injEq] at h
                obtain ⟨hex, hst, htr⟩ := h
                subst htr
                have hpz := zeroStops_of_no_zero pevs p6
                simp only [List.append_assoc]
                simp [zeroStops_append, List.any_append, z1, hz, hpz, p6,
                  zeroStops, Event.isCall, Event.isZeroOk, Event.isSearchReq,
                  Event.isDeleteReq]
              · rw [if_neg hge] at h
                rcases hl : loop cfg fuel rs' fo.rest ds' with _ | ⟨ex', st', tr'⟩
                · rw [hl] at h; simp at h
                · rw [hl] at h
                  dsimp only at h
                  simp only [Option.some.injEq, Prod.mk.injEq] at h
                  obtain ⟨hex, hst, htr⟩ := h
                  subst htr
                  have hrec := ih cfg rs' fo.rest ds' ex' st' tr' hl
                  have hpz := zeroStops_of_no_zero pevs p6
                  simp only [List.append_assoc]
                  simp [zeroStops_append, List.any_append, z1, hz, hpz, p6,
                    hrec, zeroStops, Event.isCall, Event.isZeroOk,
                    Event.isSearchReq, Event.isDeleteReq]

theorem loop_guard :
    ∀ (fuel : Nat) (cfg : Config) (rs : RunState) (ss : List SearchResp)
      (ds : List DeleteResp) (ex : ExitKind) (st : RunState) (tr : List Event),
      loop cfg fuel rs ss ds = some (ex, st, tr) →
      ∀ sd : Nat, ∀ sl : Option Nat, ∀ sk : Bool,
        sd = rs.stats.delCount → sl.getD 0 = rs.stats.grandTotal →
        sl ≠ some 0 → (sk = true → sd < sl.getD 0) →
        searchGuard ⟨sd, sl, sk⟩ tr = true := by
  intro fuel
  induction fuel with
  | zero => intro cfg rs ss ds ex st tr h; simp [loop] at h
  | succ fuel ih =>
    intro cfg rs ss ds ex st tr h sd sl sk hdels hlat hnz hso
    simp only [loop] at h
    cases hf : fetchMessages cfg rs.beforeMessageId rs.stats ss with
    | none => rw [hf] at h; simp at h
    | some fo =>
      rw [hf] at h
      dsimp only at h
      have hA : searchGuard ⟨sd, sl, sk⟩ fo.events = true :=
        fetch_guard cfg rs.beforeMessageId ss rs.stats fo hf ⟨sd, sl, sk⟩ hso
      obtain ⟨hsOK, hsErr⟩ :=
        fetch_scan cfg rs.beforeMessageId ss rs.stats fo hf ⟨sd, sl, sk⟩
      obtain ⟨g1, g2, g3⟩ := fetch_stats cfg rs.beforeMessageId ss rs.stats fo hf
      cases hres : fo.result with
      | error status =>
        rw [hres] at h
        dsimp only at h
        simp only [Option.some.injEq, Prod.mk.injEq] at h
        obtain ⟨hex, hst, htr⟩ := h
        subst htr
        rw [searchGuard_append, hA, hsErr status hres]
        have htail : searchGuard ⟨sd, sl, sk⟩
            [Event.logEv (LogMsg.processingError status) true, Event.summary]
            = true :=
          searchGuard_of_no_searchReq _ _ (by simp [Event.isSearchReq])
        simp [htail]
      | ok body =>
        rw [hres] at h
        dsimp only at h
        by_cases hgt : fo.stats.grandTotal = 0
        · -- first iteration: the latch branch executes
          have hlnone : sl = none := by
            cases hll : sl with
            | none => rfl
            | some v =>
              exfalso
              apply hnz
              rw [hll]
              have hv : v = 0 := by
                rw [hll] at hlat
                simp only [Option.getD] at hlat
                rw [hlat, ← g3]
                exact hgt
              rw [hv]
          subst hlnone
          rw [if_pos hgt, if_pos hgt] at h
          by_cases h0 : body.total_results = 0
          · rw [if_pos h0] at h
            simp only [Option.some.injEq, Prod.mk.injEq] at h
            obtain ⟨hex, hst, htr⟩ := h
            subst htr
            simp only [List.append_assoc]
            rw [searchGuard_append, hA, hsOK body hres]
            have htail : searchGuard ⟨sd, none, true⟩
                [Event.latch body.total_results, Event.summary] = true :=
              searchGuard_of_no_searchReq _ _ (by simp [Event.isSearchReq])
            simp [htail]
          · rw [if_neg h0] at h
            rcases hp : processPage cfg body.messages _ ds
              with _ | ⟨rs', ds', pevs⟩
            · rw [hp] at h; simp at h
            · rw [hp] at h
              dsimp only at h
              obtain ⟨p1, p2, p3, p4, p5, p6, p7, p8⟩ :=
                pp_seginv _ _ _ _ _ _ _ hp
              dsimp only at p7 p8
              have hB : searchGuard ⟨sd, none, true⟩
                  [Event.latch body.total_results] = true :=
                searchGuard_of_no_searchReq _ _ (by simp [Event.isSearchReq])
              have hSB : scanAfter ⟨sd, none, true⟩
                  [Event.latch body.total_results]
                  = ⟨sd, some body.total_results, true⟩ := by
                simp [scanAfter, scanStep, Option.or]
              have hC : searchGuard ⟨sd, some body.total_results, true⟩ pevs
                  = true :=
                searchGuard_of_no_searchReq _ _ p2
              have hSC : scanAfter ⟨sd, some body.total_results, true⟩ pevs
                  = ⟨sd + (pevs.filterMap Event.deletedId).length,
                      some body.total_results, true⟩ := by
                rw [scanAfter_eq]
                rw [p4, filterMap_eq_nil_any Event.searchOkVal pevs p3]
                simp [Option.or]
              by_cases hge : rs'.stats.grandTotal ≤ rs'.stats.delCount
              · rw [if_pos hge] at h
                simp only [Option.some.injEq, Prod.mk.injEq] at h
                obtain ⟨hex, hst, htr⟩ := h
                subst htr
                simp only [List.append_assoc]
                rw [searchGuard_append, hA, hsOK body hres,
                  searchGuard_append, hB, hSB, searchGuard_append, hC, hSC]
                have htail : searchGuard
                    ⟨sd + (pevs.filterMap Event.deletedId).length,
                      some body.total_results, true⟩
                    [Event.waitEv delaySearch, Event.summary] = true :=
                  searchGuard_of_no_searchReq _ _ (by simp [Event.isSearchReq])
                simp [htail]
              · rw [if_neg hge] at h
                rcases hl : loop cfg fuel rs' fo.rest ds'
                  with _ | ⟨ex', st', tr'⟩
                · rw [hl] at h; simp at h
                · rw [hl] at h
                  dsimp only at h
                  simp only [Option.some.injEq, Prod.mk.injEq] at h
                  obtain ⟨hex, hst, htr⟩ := h
                  subst htr
                  have hD : searchGuard
                      ⟨sd + (pevs.filterMap Event.deletedId).length,
                        some body.total_results, true⟩
                      [Event.waitEv delaySearch] = true :=
                    searchGuard_of_no_searchReq _ _ (by simp [Event.isSearchReq])
                  have hSD : scanAfter
                      ⟨sd + (pevs.filterMap Event.deletedId).length,
                        some body.total_results, true⟩
                      [Event.waitEv delaySearch]
                      = ⟨sd + (pevs.filterMap Event.deletedId).length,
                          some body.total_results, true⟩ := by
                    simp [scanAfter, scanStep]
                  have hE : searchGuard
                      ⟨sd + (pevs.filterMap Event.deletedId).length,
                        some body.total_results, true⟩ tr' = true := by
                    apply ih cfg rs' fo.rest ds' ex' st' tr' hl
                    · omega
                    · simp only [Option.getD]
                      omega
                    · simp only [ne_eq, Option.some.injEq]
                      exact h0
                    · intro _
                      simp only [Option.getD]
                      omega
                  simp only [List.append_assoc]
                  rw [searchGuard_append, hA, hsOK body hres,
                    searchGuard_append, hB, hSB, searchGuard_append, hC, hSC,
                    searchGuard_append, hD, hSD, hE]
                  simp
        · -- `grandTotal` already latched non-zero: no latch event
          have hrsg : rs.stats.grandTotal ≠ 0 := by rw [← g3]; exact hgt
          rw [if_neg hgt, if_neg hgt] at h
          by_cases h0 : body.total_results = 0
          · rw [if_pos h0] at h
            simp only [Option.some.injEq, Prod.mk.injEq] at h
            obtain ⟨hex, hst, htr⟩ := h
            subst htr
            simp only [List.append_assoc, List.nil_append]
            rw [searchGuard_append, hA, hsOK body hres]
            have htail : searchGuard ⟨sd, sl, true⟩ [Event.summary] = true :=
              searchGuard_of_no_searchReq _ _ (by simp [Event.isSearchReq])
            simp [htail]
          · rw [if_neg h0] at h
            rcases hp : processPage cfg body.messages _ ds
              with _ | ⟨rs', ds', pevs⟩
            · rw [hp] at h; simp at h
            · rw [hp] at h
              dsimp only at h
              obtain ⟨p1, p2, p3, p4, p5, p6, p7, p8⟩ :=
                pp_seginv _ _ _ _ _ _ _ hp
              dsimp only at p7 p8
              have hC : searchGuard ⟨sd, sl, true⟩ pevs = true :=
                searchGuard_of_no_searchReq _ _ p2
              have hSC : scanAfter ⟨sd, sl, true⟩ pevs
                  = ⟨sd + (pevs.filterMap Event.deletedId).length, sl, true⟩ := by
                rw [scanAfter_eq]
                rw [p4, filterMap_eq_nil_any Event.searchOkVal pevs p3]
                cases sl <;> simp [Option.or]
              by_cases hge : rs'.stats.grandTotal ≤ rs'.stats.delCount
              · rw [if_pos hge] at h
                simp only [Option.some.injEq, Prod.mk.injEq] at h
                obtain ⟨hex, hst, htr⟩ := h
                subst htr
                simp only [List.append_assoc, List.nil_append]
                rw [searchGuard_append, hA, hsOK body hres,
                  searchGuard_append, hC, hSC]
                have htail : searchGuard
                    ⟨sd + (pevs.filterMap Event.deletedId).length, sl, true⟩
                    [Event.waitEv delaySearch, Event.summary] = true :=
                  searchGuard_of_no_searchReq _ _ (by simp [Event.isSearchReq])
                simp [htail]
              · rw [if_neg hge] at h
                rcases hl : loop cfg fuel rs' fo.rest ds'
                  with _ | ⟨ex', st', tr'⟩
                · rw [hl] at h; simp at h
                · rw [hl] at h
                  dsimp only at h
                  simp only [Option.some.injEq, Prod.mk.injEq] at h
                  obtain ⟨hex, hst, htr⟩ := h
                  subst htr
                  have hD : searchGuard
                      ⟨sd + (pevs.filterMap Event.deletedId).length, sl, true⟩
                      [Event.waitEv delaySearch] = true :=
                    searchGuard_of_no_searchReq _ _ (by simp [Event.isSearchReq])
                  have hSD : scanAfter
                      ⟨sd + (pevs.filterMap Event.deletedId).length, sl, true⟩
                      [Event.waitEv delaySearch]
                      = ⟨sd + (pevs.filterMap Event.deletedId).length, sl, true⟩ := by
                    simp [scanAfter, scanStep]
                  have hE : searchGuard
                      ⟨sd + (pevs.filterMap Event.deletedId).length, sl, true⟩
                      tr' = true := by
                    apply ih cfg rs' fo.rest ds' ex' st' tr' hl
                    · omega
                    · rw [p7, g3]
                      exact hlat
                    · exact hnz
                    · intro _
                      rw [hlat]
                      omega
                  simp only [List.append_assoc, List.nil_append]
                  rw [searchGuard_append, hA, hsOK body hres,
                    searchGuard_append, hC, hSC,
                    searchGuard_append, hD, hSD, hE]
                  simp

theorem loop_zero_iff :
    ∀ (fuel : Nat) (cfg : Config) (rs : RunState) (ss : List SearchResp)
      (ds : List DeleteResp) (ex : ExitKind) (st : RunState) (tr : List Event),
      loop cfg fuel rs ss ds = some (ex, st, tr) →
      (ex = ExitKind.zeroResults ↔
        (tr.filterMap Event.searchOkVal).getLast? = some 0) := by
  intro fuel
  induction fuel with
  | zero => intro cfg rs ss ds ex st tr h; simp [loop] at h
  | succ fuel ih =>
    intro cfg rs ss ds ex st tr h
    simp only [loop] at h
    cases hf : fetchMessages cfg rs.beforeMessageId rs.stats ss with
    | none => rw [hf] at h; simp at h
    | some fo =>
      rw [hf] at h
      dsimp only at h
      obtain ⟨f1, f2, f3, f4, f5, f6, f7, f8⟩ :=
        fetch_trace cfg rs.beforeMessageId ss rs.stats fo hf
      cases hres : fo.result with
      | error status =>
        rw [hres] at h
        dsimp only at h
        simp only [Option.some.injEq, Prod.mk.injEq] at h
        obtain ⟨hex, hst, htr⟩ := h
        subst htr
        subst hex
        simp [List.filterMap_append, f2 status hres, Event.searchOkVal]
      | ok body =>
        rw [hres] at h
        dsimp only at h
        have hlz : ((if fo.stats.grandTotal = 0
            then [Event.latch body.total_results]
            else []) : List Event).filterMap Event.searchOkVal = [] := by
          by_cases hgt : fo.stats.grandTotal = 0 <;> simp [hgt, Event.searchOkVal]
        by_cases h0 : body.total_results = 0
        · rw [if_pos h0] at h
          simp only [Option.some.injEq, Prod.mk.injEq] at h
          obtain ⟨hex, hst, htr⟩ := h
          subst htr
          subst hex
          by_cases hgt : fo.stats.grandTotal = 0 <;>
            simp [List.filterMap_append, f1 body hres, h0, hgt,
              Event.searchOkVal]
        · rw [if_neg h0] at h
          rcases hp : processPage cfg body.messages _ ds
            with _ | ⟨rs', ds', pevs⟩
          · rw [hp] at h; simp at h
          · rw [hp] at h
            dsimp only at h
            obtain ⟨p1, p2, p3, p4, p5, p6, p7, p8⟩ :=
              pp_seginv _ _ _ _ _ _ _ hp
            by_cases hge : rs'.stats.grandTotal ≤ rs'.stats.delCount
            · rw [if_pos hge] at h
              simp only [Option.some.injEq, Prod.mk.injEq] at h
              obtain ⟨hex, hst, htr⟩ := h
              subst htr
              subst hex
              simp [List.filterMap_append, f1 body hres, p3, hlz,
                Event.searchOkVal, h0]
            · rw [if_neg hge] at h
              rcases hl : loop cfg fuel rs' fo.rest ds'
                with _ | ⟨ex', st', tr'⟩
              · rw [hl] at h; simp at h
              · rw [hl] at h
                dsimp only at h
                simp only [Option.some.injEq, Prod.mk.injEq] at h
                obtain ⟨hex, hst, htr⟩ := h
                subst htr
                subst hex
                have ihz := ih cfg rs' fo.rest ds' ex' st' tr' hl
                have hfm : ((fo.events
                      ++ (if fo.stats.grandTotal = 0
                          then [Event.latch body.total_results] else [])
                      ++ pevs ++ [Event.waitEv delaySearch]
                      ++ tr').filterMap Event.searchOkVal)
                    = body.total_results
                      :: tr'.filterMap Event.searchOkVal := by
                  simp [List.filterMap_append, f1 body hres, p3, hlz,
                    Event.searchOkVal]
                cases hS : tr'.filterMap Event.searchOkVal with
                | nil =>
                  rw [hfm, hS]
                  constructor
                  · intro hzz
                    have := ihz.mp hzz
                    rw [hS] at this
                    simp at this
                  · intro hzz
                    simp only [List.getLast?_singleton,
                      Option.some.injEq] at hzz
                    exact absurd hzz h0
                | cons y ys =>
                  rw [hfm, hS, List.getLast?_cons_cons, ← hS]
                  exact ihz

theorem loop_fatal :
    ∀ (fuel : Nat) (cfg : Config) (rs : RunState) (ss : List SearchResp)
      (ds : List DeleteResp) (ex : ExitKind) (st : RunState) (tr : List Event)
      (e : Nat),
      loop cfg fuel rs ss ds = some (ex, st, tr) → ex = ExitKind.fatal e →
      SearchResp.err e ∈ ss
      ∧ ∃ tr1, tr = tr1
          ++ [Event.logEv (LogMsg.processingError e) true, Event.summary] := by
  intro fuel
  induction fuel with
  | zero => intro cfg rs ss ds ex st tr e h; simp [loop] at h
  | succ fuel ih =>
    intro cfg rs ss ds ex st tr e h he
    simp only [loop] at h
    cases hf : fetchMessages cfg rs.beforeMessageId rs.stats ss with
    | none => rw [hf] at h; simp at h
    | some fo =>
      rw [hf] at h
      dsimp only at h
      obtain ⟨m1, m2⟩ := fetch_mem cfg rs.beforeMessageId ss rs.stats fo hf
      cases hres : fo.result with
      | error status =>
        rw [hres] at h
        dsimp only at h
        simp only [Option.some.injEq, Prod.mk.injEq] at h
        obtain ⟨hex, hst, htr⟩ := h
        subst htr
        rw [← hex] at he
        simp only [ExitKind.fatal.injEq] at he
        subst he
        exact ⟨m1 status hres, fo.events, rfl⟩
      | ok body =>
        rw [hres] at h
        dsimp only at h
        by_cases h0 : body.total_results = 0
        · rw [if_pos h0] at h
          simp only [Option.some.injEq, Prod.mk.injEq] at h
          obtain ⟨hex, hst, htr⟩ := h
          rw [← hex] at he
          simp at he
        · rw [if_neg h0] at h
          rcases hp : processPage cfg body.messages _ ds
            with _ | ⟨rs', ds', pevs⟩
          · rw [hp] at h; simp at h
          · rw [hp] at h
            dsimp only at h
            by_cases hge : rs'.stats.grandTotal ≤ rs'.stats.delCount
            · rw [if_pos hge] at h
              simp only [Option.some.injEq, Prod.mk.injEq] at h
              obtain ⟨hex, hst, htr⟩ := h
              rw [← hex] at he
              simp at he
            · rw [if_neg hge] at h
              rcases hl : loop cfg fuel rs' fo.rest ds'
                with _ | ⟨ex', st', tr'⟩
              · rw [hl] at h; simp at h
              · rw [hl] at h
                dsimp only at h
                simp only [Option.some.injEq, Prod.mk.injEq] at h
                obtain ⟨hex, hst, htr⟩ := h
                subst htr
                subst hex
                obtain ⟨hm, tr1', htr'⟩ :=
                  ih cfg rs' fo.rest ds' ex' st' tr' e hl he
                constructor
                · exact m2 _ hm
                · exact ⟨fo.events
                    ++ (if fo.stats.grandTotal = 0
                        then [Event.latch body.total_results] else [])
                    ++ pevs ++ [Event.waitEv delaySearch] ++ tr1',
                    by rw [htr', ← List.append_assoc]⟩

theorem loop_reached :
    ∀ (fuel : Nat) (cfg : Config) (rs : RunState) (ss : List SearchResp)
      (ds : List DeleteResp) (ex : ExitKind) (st : RunState) (tr : List Event),
      loop cfg fuel rs ss ds = some (ex, st, tr) →
      ex = ExitKind.reachedTotal →
      st.stats.grandTotal ≤ st.stats.delCount := by
  intro fuel
  induction fuel with
  | zero => intro cfg rs ss ds ex st tr h; simp [loop] at h
  | succ fuel ih =>
    intro cfg rs ss ds ex st tr h he
    simp only [loop] at h
    cases hf : fetchMessages cfg rs.beforeMessageId rs.stats ss with
    | none => rw [hf] at h; simp at h
    | some fo =>
      rw [hf] at h
      dsimp only at h
      cases hres : fo.result with
      | error status =>
        rw [hres] at h
        dsimp only at h
        simp only [Option.some.injEq, Prod.mk.injEq] at h
        obtain ⟨hex, hst, htr⟩ := h
        rw [← hex] at he
        simp at he
      | ok body =>
        rw [hres] at h
        dsimp only at h
        by_cases h0 : body.total_results = 0
        · rw [if_pos h0] at h
          simp only [Option.some.injEq, Prod.mk.injEq] at h
          obtain ⟨hex, hst, htr⟩ := h
          rw [← hex] at he
          simp at he
        · rw [if_neg h0] at h
          rcases hp : processPage cfg body.messages _ ds
            with _ | ⟨rs', ds', pevs⟩
          · rw [hp] at h; simp at h
          · rw [hp] at h
            dsimp only at h
            by_cases hge : rs'.stats.grandTotal ≤ rs'.stats.delCount
            · rw [if_pos hge] at h
              simp only [Option.some.injEq, Prod.mk.injEq] at h
              obtain ⟨hex, hst, htr⟩ := h
              rw [← hst]
              exact hge
            · rw [if_neg hge] at h
              rcases hl : loop cfg fuel rs' fo.rest ds'
                with _ | ⟨ex', st', tr'⟩
              · rw [hl] at h; simp at h
              · rw [hl] at h
                dsimp only at h
                simp only [Option.some.injEq, Prod.mk.injEq] at h
                obtain ⟨hex, hst, htr⟩ := h
                subst hex
                rw [← hst]
                exact ih cfg rs' fo.rest ds' ex' st' tr' hl he

theorem loop_cursor :
    ∀ (fuel : Nat) (cfg : Config) (rs : RunState) (ss : List SearchResp)
      (ds : List DeleteResp) (ex : ExitKind) (st : RunState) (tr : List Event),
      loop cfg fuel rs ss ds = some (ex, st, tr) →
      searchReqsFollowCursor cfg rs.beforeMessageId tr = true := by
  intro fuel
  induction fuel with
  | zero => intro cfg rs ss ds ex st tr h; simp [loop] at h
  | succ fuel ih =>
    intro cfg rs ss ds ex st tr h
    simp only [loop] at h
    cases hf : fetchMessages cfg rs.beforeMessageId rs.stats ss with
    | none => rw [hf] at h; simp at h
    | some fo =>
      rw [hf] at h
      dsimp only at h
      obtain ⟨f1, f2, f3, f4, f5, f6, f7, f8⟩ :=
        fetch_trace cfg rs.beforeMessageId ss rs.stats fo hf
      have hA : searchReqsFollowCursor cfg rs.beforeMessageId fo.events = true :=
        fetch_cursor cfg rs.beforeMessageId ss rs.stats fo hf
      have hCA : cursorAfter rs.beforeMessageId fo.events = rs.beforeMessageId :=
        cursorAfter_of_no_deleted fo.events rs.beforeMessageId f3
      cases hres : fo.result with
      | error status =>
        rw [hres] at h
        dsimp only at h
        simp only [Option.some.injEq, Prod.mk.injEq] at h
        obtain ⟨hex, hst, htr⟩ := h
        subst htr
        rw [searchReqsFollowCursor_append, hA, hCA]
        have htail : searchReqsFollowCursor cfg rs.beforeMessageId
            [Event.logEv (LogMsg.processingError status) true, Event.summary]
            = true :=
          searchReqsFollowCursor_of_no_searchReq cfg _ _
            (by simp [Event.isSearchReq])
        simp [htail]
      | ok body =>
        rw [hres] at h
        dsimp only at h
        have hB : searchReqsFollowCursor cfg rs.beforeMessageId
            ((if fo.stats.grandTotal = 0
              then [Event.latch body.total_results] else []) : List Event)
            = true := by
          by_cases hgt : fo.stats.grandTotal = 0 <;>
            simp [hgt, searchReqsFollowCursor, Event.isSearchReq]
        have hCB : cursorAfter rs.beforeMessageId
            ((if fo.stats.grandTotal = 0
              then [Event.latch body.total_results] else []) : List Event)
            = rs.beforeMessageId := by
          by_cases hgt : fo.stats.grandTotal = 0 <;>
            simp [hgt, cursorAfter, cursorStep, Event.deletedId]
        by_cases h0 : body.total_results = 0
        · rw [if_pos h0] at h
          simp only [Option.some.injEq, Prod.mk.injEq] at h
          obtain ⟨hex, hst, htr⟩ := h
          subst htr
          simp only [List.append_assoc]
          rw [searchReqsFollowCursor_append, hA, hCA,
            searchReqsFollowCursor_append, hB, hCB]
          have htail : searchReqsFollowCursor cfg rs.beforeMessageId
              [Event.summary] = true :=
            searchReqsFollowCursor_of_no_searchReq cfg _ _
              (by simp [Event.isSearchReq])
          simp [htail]
        · rw [if_neg h0] at h
          rcases hp : processPage cfg body.messages _ ds
            with _ | ⟨rs', ds', pevs⟩
          · rw [hp] at h; simp at h
          · rw [hp] at h
            dsimp only at h
            obtain ⟨p1, p2, p3, p4, p5, p6, p7, p8⟩ :=
              pp_seginv _ _ _ _ _ _ _ hp
            dsimp only at p1
            have hC : searchReqsFollowCursor cfg rs.beforeMessageId pevs = true :=
              searchReqsFollowCursor_of_no_searchReq cfg _ _ p2
            by_cases hge : rs'.stats.grandTotal ≤ rs'.stats.delCount
            · rw [if_pos hge] at h
              simp only [Option.some.injEq, Prod.mk.injEq] at h
              obtain ⟨hex, hst, htr⟩ := h
              subst htr
              simp only [List.append_assoc]
              rw [searchReqsFollowCursor_append, hA, hCA,
                searchReqsFollowCursor_append, hB, hCB,
                searchReqsFollowCursor_append, hC, p1]
              have htail : searchReqsFollowCursor cfg rs'.beforeMessageId
                  [Event.waitEv delaySearch, Event.summary] = true :=
                searchReqsFollowCursor_of_no_searchReq cfg _ _
                  (by simp [Event.isSearchReq])
              simp [htail]
            · rw [if_neg hge] at h
              rcases hl : loop cfg fuel rs' fo.rest ds'
                with _ | ⟨ex', st', tr'⟩
              · rw [hl] at h; simp at h
              · rw [hl] at h
                dsimp only at h
                simp only [Option.some.injEq, Prod.mk.injEq] at h
                obtain ⟨hex, hst, htr⟩ := h
                subst htr
                have hrec := ih cfg rs' fo.rest ds' ex' st' tr' hl
                simp only [List.append_assoc]
                rw [searchReqsFollowCursor_append, hA, hCA,
                  searchReqsFollowCursor_append, hB, hCB,
                  searchReqsFollowCursor_append, hC, p1,
                  searchReqsFollowCursor_append]
                have hwait : searchReqsFollowCursor cfg rs'.beforeMessageId
                    [Event.waitEv delaySearch] = true :=
                  searchReqsFollowCursor_of_no_searchReq cfg _ _
                    (by simp [Event.isSearchReq])
                have hcw : cursorAfter rs'.beforeMessageId
                    [Event.waitEv delaySearch] = rs'.beforeMessageId := by
                  simp [cursorAfter, cursorStep, Event.deletedId]
                rw [hwait, hcw, hrec]
                simp

theorem loop_search_issued :
    ∀ (fuel : Nat) (cfg : Config) (rs : RunState) (ss : List SearchResp)
      (ds : List DeleteResp) (ex : ExitKind) (st : RunState) (tr : List Event),
      loop cfg fuel rs ss ds = some (ex, st, tr) →
      tr.any Event.isSearchReq = true := by
  intro fuel cfg rs ss ds ex st tr h
  cases fuel with
  | zero => simp [loop] at h
  | succ fuel =>
    simp only [loop] at h
    cases hf : fetchMessages cfg rs.beforeMessageId rs.stats ss with
    | none => rw [hf] at h; simp at h
    | some fo =>
      rw [hf] at h
      dsimp only at h
      obtain ⟨tail, hfe⟩ := fetch_head cfg rs.beforeMessageId ss rs.stats fo hf
      have hany : fo.events.any Event.isSearchReq = true := by
        rw [hfe]
        simp [searchReqEv, Event.isSearchReq]
      cases hres : fo.result with
      | error status =>
        rw [hres] at h
        dsimp only at h
        simp only [Option.some.injEq, Prod.mk.injEq] at h
        obtain ⟨hex, hst, htr⟩ := h
        subst htr
        simp [List.any_append, hany]
      | ok body =>
        rw [hres] at h
        dsimp only at h
        by_cases h0 : body.total_results = 0
        · rw [if_pos h0] at h
          simp only [Option.some.injEq, Prod.mk.injEq] at h
          obtain ⟨hex, hst, htr⟩ := h
          subst htr
          simp [List.any_append, hany]
        · rw [if_neg h0] at h
          rcases hp : processPage cfg body.messages _ ds
            with _ | ⟨rs', ds', pevs⟩
          · rw [hp] at h; simp at h
          · rw [hp] at h
            dsimp only at h
            by_cases hge : rs'.stats.grandTotal ≤ rs'.stats.delCount
            · rw [if_pos hge] at h
              simp only [Option.some.injEq, Prod.mk.injEq] at h
              obtain ⟨hex, hst, htr⟩ := h
              subst htr
              simp [List.any_append, hany]
            · rw [if_neg hge] at h
              rcases hl : loop cfg fuel rs' fo.rest ds'
                with _ | ⟨ex', st', tr'⟩
              · rw [hl] at h; simp at h
              · rw [hl] at h
                dsimp only at h
                simp only [Option.some.injEq, Prod.mk.injEq] at h
                obtain ⟨hex, hst, htr⟩ := h
                subst htr
                simp [List.any_append, hany]

theorem loop_end_summary :
    ∀ (fuel : Nat) (cfg : Config) (rs : RunState) (ss : List SearchResp)
      (ds : List DeleteResp) (ex : ExitKind) (st : RunState) (tr : List Event),
      loop cfg fuel rs ss ds = some (ex, st, tr) →
      tr.getLast? = some Event.summary := by
  intro fuel
  induction fuel with
  | zero => intro cfg rs ss ds ex st tr h; simp [loop] at h
  | succ fuel ih =>
    intro cfg rs ss ds ex st tr h
    simp only [loop] at h
    cases hf : fetchMessages cfg rs.beforeMessageId rs.stats ss with
    | none => rw [hf] at h; simp at h
    | some fo =>
      rw [hf] at h
      dsimp only at h
      cases hres : fo.result with
      | error status =>
        rw [hres] at h
        dsimp only at h
        simp only [Option.some.injEq, Prod.mk.injEq] at h
        obtain ⟨hex, hst, htr⟩ := h
        subst htr
        rw [List.getLast?_append_of_ne_nil _ (by simp)]
        rfl
      | ok body =>
        rw [hres] at h
        dsimp only at h
        by_cases h0 : body.total_results = 0
        · rw [if_pos h0] at h
          simp only [Option.some.injEq, Prod.mk.injEq] at h
          obtain ⟨hex, hst, htr⟩ := h
          subst htr
          rw [List.getLast?_append_of_ne_nil _ (by simp)]
          rfl
        · rw [if_neg h0] at h
          rcases hp : processPage cfg body.messages _ ds
            with _ | ⟨rs', ds', pevs⟩
          · rw [hp] at h; simp at h
          · rw [hp] at h
            dsimp only at h
            by_cases hge : rs'.stats.grandTotal ≤ rs'.stats.delCount
            · rw [if_pos hge] at h
              simp only [Option.some.injEq, Prod.mk.injEq] at h
              obtain ⟨hex, hst, htr⟩ := h
              subst htr
              rw [List.getLast?_append_of_ne_nil _ (by simp)]
              rfl
            · rw [if_neg hge] at h
              rcases hl : loop cfg fuel rs' fo.rest ds'
                with _ | ⟨ex', st', tr'⟩
              · rw [hl] at h; simp at h
              · rw [hl] at h
                dsimp only at h
                simp only [Option.some.injEq, Prod.mk.injEq] at h
                obtain ⟨hex, hst, htr⟩ := h
                subst htr
                have hrec := ih cfg rs' fo.rest ds' ex' st' tr' hl
                have hne : tr' ≠ [] := by
                  intro hnil
                  rw [hnil] at hrec
                  simp at hrec
                rw [List.getLast?_append_of_ne_nil _ hne]
                exact hrec

/-! ### Claim theorems -/

/-- Claim C1: for every message of a returned search page, the runner
attempts backup and deletion if and only if the message's type code is not
3, its author id equals the configured filter author id, and its hit flag
is true (`selectedFor`); a message failing any of these conditions is never
backed up, never has a delete request issued, and leaves the state and the
delete-response oracle untouched.  (`processMessage` is the body the loop
runs on each message of each group of the page, index.ts lines 234-253.) -/
theorem claim1_selection_iff (cfg : Config) (m : Message) (rs : RunState)
    (ds : List DeleteResp) (rs' : RunState) (ds' : List DeleteResp)
    (evs : List Event)
    (h : processMessage cfg m rs ds = some (rs', ds', evs)) :
    ((evs.any Event.isBackup = true) ↔ selectedFor cfg m)
    ∧ ((evs.any Event.isDeleteReq = true) ↔ selectedFor cfg m)
    ∧ (¬ selectedFor cfg m → rs' = rs ∧ ds' = ds ∧ evs = []) := by
  by_cases hsel : selectedFor cfg m
  · obtain ⟨dout, hd, hds, hcase⟩ := pm_sel cfg m rs ds hsel rs' ds' evs h
    obtain ⟨t1, t2, t3, t4, t5, t6, t7, t8, ⟨dtail, hdev⟩, t10⟩ :=
      del_trace cfg m.id ds rs.stats rs.beforeMessageId dout hd
    have hdel : dout.events.any Event.isDeleteReq = true := by
      rw [hdev]
      simp [Event.isDeleteReq]
    rcases hcase with ⟨hok, hrs, hevs⟩ | ⟨s, herr, hrs, hevs⟩ <;> subst hevs <;>
      refine ⟨?_, ?_, fun hn => absurd hsel hn⟩ <;>
        simp [List.any_append, Event.isBackup, Event.isDeleteReq, hdel, hsel]
  · rw [pm_skip cfg m rs ds hsel] at h
    simp only [Option.some.injEq, Prod.mk.injEq] at h
    obtain ⟨h1, h2, h3⟩ := h
    subst h1
    subst h2
    subst h3
    refine ⟨?_, ?_, fun _ => ⟨rfl, rfl, rfl⟩⟩ <;> simp [hsel]

/-- Witness for C1 at a concrete selected message: the backup event is
present in the produced trace. -/
theorem claim1_witness : pmRes.2.2.any Event.isBackup = true := by
  have h := claim1_selection_iff cfgW mOk ⟨initStats, none⟩ [DeleteResp.ok]
    pmRes.1 pmRes.2.1 pmRes.2.2 (by rfl)
  exact h.1.mpr (by decide)

/-- Claim C2: for every message selected for deletion, the backup record is
written strictly before the delete request is issued (the trace is the
progress log, then the backup, then events among which at least one delete
request occurs), and exactly one backup record is written for this
consideration of the message, regardless of whether the deletion succeeds
or fails (no assumption is made on the delete outcome). -/
theorem claim2_backup_before_delete (cfg : Config) (m : Message)
    (rs : RunState) (ds : List DeleteResp) (rs' : RunState)
    (ds' : List DeleteResp) (evs : List Event)
    (hsel : selectedFor cfg m)
    (h : processMessage cfg m rs ds = some (rs', ds', evs)) :
    ∃ rest, evs = Event.logEv
        (LogMsg.progress (rs.stats.delCount + 1) rs.stats.grandTotal m.id) false
      :: Event.backup m :: rest
      ∧ rest.countP Event.isBackup = 0
      ∧ 1 ≤ rest.countP Event.isDeleteReq := by
  obtain ⟨dout, hd, hds, hcase⟩ := pm_sel cfg m rs ds hsel rs' ds' evs h
  obtain ⟨t1, t2, t3, t4, t5, t6, t7, t8, _, t10⟩ :=
    del_trace cfg m.id ds rs.stats rs.beforeMessageId dout hd
  rcases hcase with ⟨hok, hrs, hevs⟩ | ⟨s, herr, hrs, hevs⟩ <;> subst hevs
  · exact ⟨_, rfl,
      by simp [List.append_eq, List.countP_append, t5, Event.isBackup],
      by simp only [List.append_eq, List.countP_append]; omega⟩
  · exact ⟨_, rfl,
      by simp [List.append_eq, List.countP_append, t5, Event.isBackup],
      by simp only [List.append_eq, List.countP_append]; omega⟩

/-- Witness for C2 at a concrete selected message. -/
theorem claim2_witness :
    ∃ rest, pmRes.2.2 = Event.logEv (LogMsg.progress 1 0 "m1") false
      :: Event.backup mOk :: rest
      ∧ rest.countP Event.isBackup = 0
      ∧ 1 ≤ rest.countP Event.isDeleteReq := by
  have h := claim2_backup_before_delete cfgW mOk ⟨initStats, none⟩
    [DeleteResp.ok] pmRes.1 pmRes.2.1 pmRes.2.2 (by decide) (by rfl)
  exact h

/-- Claim C3: a 429 response on either endpoint bumps the throttle-event
counter by exactly 1 and the cumulative throttle time by exactly the
reported `retry_after` (`throttleBump`), waits exactly that duration
(`waitEv ra`, followed by the rate-limit gate which can only add time),
and re-issues the identical request (the retry is the same call on the
remaining responses, whose trace again begins with the gate and the same
request event); a 202 on search does the same wait-and-retry but leaves
the stats untouched. -/
theorem claim3_retry_policy :
    (∀ (cfg : Config) (b : Option String) (st : Stats) (ra : Nat)
        (rest : List SearchResp),
      fetchMessages cfg b st (SearchResp.s202 ra :: rest)
        = (fetchMessages cfg b st rest).map
            (FetchOut.prependEvents
              [Event.gate, searchReqEv cfg b,
               Event.logEv (LogMsg.channelNotIndexed ra) false, Event.waitEv ra]))
    ∧ (∀ (cfg : Config) (b : Option String) (st : Stats) (ra : Nat)
        (rest : List SearchResp),
      fetchMessages cfg b st (SearchResp.s429 ra :: rest)
        = (fetchMessages cfg b (throttleBump st ra) rest).map
            (FetchOut.prependEvents
              [Event.gate, searchReqEv cfg b,
               Event.logEv (LogMsg.rateLimited ra) false, Event.waitEv ra]))
    ∧ (∀ (cfg : Config) (mid : String) (st : Stats) (b : Option String)
        (ra : Nat) (rest : List DeleteResp),
      deleteMessage cfg mid st b (DeleteResp.d429 ra :: rest)
        = (deleteMessage cfg mid (throttleBump st ra) b rest).map
            (DelOut.prependEvents
              [Event.gate, Event.deleteReq cfg.authToken cfg.channelId mid,
               Event.logEv (LogMsg.rateLimitedDelete ra) false, Event.waitEv ra]))
    ∧ (∀ (cfg : Config) (b : Option String) (ss : List SearchResp) (st : Stats)
        (out : FetchOut), fetchMessages cfg b st ss = some out →
        ∃ tail, out.events = Event.gate :: searchReqEv cfg b :: tail)
    ∧ (∀ (cfg : Config) (mid : String) (ds : List DeleteResp) (st : Stats)
        (b : Option String) (out : DelOut),
        deleteMessage cfg mid st b ds = some out →
        ∃ tail, out.events = Event.gate
          :: Event.deleteReq cfg.authToken cfg.channelId mid :: tail) := by
  refine ⟨fun cfg b st ra rest => rfl, fun cfg b st ra rest => rfl,
    fun cfg mid st b ra rest => rfl, fun cfg b ss st out h => ?_,
    fun cfg mid ds st b out h => ?_⟩
  · exact fetch_head cfg b ss st out h
  · obtain ⟨_, _, _, _, _, _, _, _, hshape, _⟩ :=
      del_trace cfg mid ds st b out h
    exact hshape

/-- Witness for C3 at a concrete fetch that goes through one 202 round. -/
theorem claim3_witness :
    ∃ tail, fetchRes.events = Event.gate :: searchReqEv cfgW none :: tail := by
  exact claim3_retry_policy.2.2.2.1 cfgW none
    [SearchResp.s202 30, SearchResp.ok ⟨1, []⟩] initStats fetchRes (by rfl)

/-- Claim C4: the main loop terminates normally exactly at the first of
the two conditions: a search result reporting `total_results = 0` (the run
exits `zeroResults` if and only if the last completed search in its trace
reported 0), or `delCount >= grandTotal` after processing a full page (the
`reachedTotal` exit implies the final counters satisfy it); no outbound
call is ever issued after a zero-result search (`zeroStops`), and no
search is ever issued after some completed search once the number of
successful deletions has reached the latched `grandTotal`
(`searchGuard`). -/
theorem claim4_termination (cfg : Config) (fuel : Nat) (ss : List SearchResp)
    (ds : List DeleteResp) (ex : ExitKind) (st : RunState) (tr : List Event)
    (h : runMain cfg fuel ss ds = some (ex, st, tr)) :
    (ex = ExitKind.zeroResults ↔
      (tr.filterMap Event.searchOkVal).getLast? = some 0)
    ∧ (ex = ExitKind.reachedTotal → st.stats.grandTotal ≤ st.stats.delCount)
    ∧ zeroStops false tr = true
    ∧ searchGuard ⟨0, none, false⟩ tr = true := by
  unfold runMain at h
  cases hl : loop cfg fuel ⟨initStats, cfg.beforeMessageId0⟩ ss ds with
  | none => rw [hl] at h; simp at h
  | some z =>
    obtain ⟨ex0, st0, tr0⟩ := z
    rw [hl] at h
    dsimp only at h
    simp only [Option.some.injEq, Prod.mk.injEq] at h
    obtain ⟨hex, hst, htr⟩ := h
    subst hex
    subst hst
    subst htr
    have hz := loop_zero_iff fuel cfg ⟨initStats, cfg.beforeMessageId0⟩
      ss ds ex0 st0 tr0 hl
    have hr := loop_reached fuel cfg ⟨initStats, cfg.beforeMessageId0⟩
      ss ds ex0 st0 tr0 hl
    have hzs := loop_zero_stops fuel cfg ⟨initStats, cfg.beforeMessageId0⟩
      ss ds ex0 st0 tr0 hl
    have hg := loop_guard fuel cfg ⟨initStats, cfg.beforeMessageId0⟩
      ss ds ex0 st0 tr0 hl 0 none false rfl rfl (by simp) (by simp)
    refine ⟨?_, hr, ?_, ?_⟩
    · simpa [Event.searchOkVal] using hz
    · simpa [zeroStops, Event.isCall, Event.isSearchReq, Event.isDeleteReq,
        Event.isZeroOk] using hzs
    · simpa [searchGuard, scanStep, Event.isSearchReq] using hg

/-- Witness for C4 at a concrete run whose only search reports zero
results. -/
theorem claim4_witness :
    (zeroRun.2.2.filterMap Event.searchOkVal).getLast? = some 0
    ∧ zeroStops false zeroRun.2.2 = true := by
  have h := claim4_termination cfgW 1 [SearchResp.ok ⟨0, []⟩] []
    zeroRun.1 zeroRun.2.1 zeroRun.2.2 (by rfl)
  exact ⟨h.1.mp (by rfl), h.2.2.1⟩

/-- Counterexample to claim C5 as stated: in this run the message with the
empty-string id is successfully deleted (the trace's only
successful-deletion log carries id ""), yet the next search request's
`max_id` parameter is absent (`none`), not equal to the just-deleted ID
`some ""` — because line 158's `if (this.beforeMessageId)` treats the
empty string as falsy and omits the parameter. -/
theorem claim5_counterexample :
    emptyIdRun.2.2.filterMap Event.deletedId = [""]
    ∧ emptyIdRun.2.2.filterMap Event.searchMaxId = [none, none] := by
  exact ⟨rfl, rfl⟩

/-- Claim C5 (amended): after every successful deletion the cursor
`beforeMessageId` equals the just-deleted message's id, and every search
request's `max_id` equals `maxIdParam` of the most recent
successful-deletion id (falling back to the initial cursor): i.e. the
just-deleted id whenever that id is truthy (nonempty), and absent when
the id is the empty string. -/
theorem claim5_cursor_follow :
    (∀ (cfg : Config) (mid : String) (st : Stats) (b : Option String)
        (ds : List DeleteResp) (out : DelOut),
      deleteMessage cfg mid st b ds = some out → out.result = Except.ok () →
      out.before = some mid)
    ∧ (∀ (fuel : Nat) (cfg : Config) (rs : RunState) (ss : List SearchResp)
        (ds : List DeleteResp) (ex : ExitKind) (st : RunState)
        (tr : List Event),
      loop cfg fuel rs ss ds = some (ex, st, tr) →
      searchReqsFollowCursor cfg rs.beforeMessageId tr = true) := by
  constructor
  · intro cfg mid st b ds out h hok
    exact ((del_state cfg mid ds st b out h).2.2.2.2.2.1 hok).2
  · exact loop_cursor

/-- Witness for C5 (amended) at the empty-id run. -/
theorem claim5_witness :
    searchReqsFollowCursor cfgW none emptyIdRun.2.2 = true := by
  exact claim5_cursor_follow.2 2 cfgW ⟨initStats, none⟩
    [SearchResp.ok ⟨2, [[mEmptyId]]⟩, SearchResp.ok ⟨0, []⟩]
    [DeleteResp.ok] emptyIdRun.1 emptyIdRun.2.1 emptyIdRun.2.2 (by rfl)

/-- Claim C6: a non-retryable error on a delete call never aborts the
session — it is logged, the failed-deletion counter increments by exactly
1, the deleted counter is unchanged, and the group fold continues with the
remaining messages — whereas a non-retryable error on a search call is
session-fatal: the `fatal` exit arises only from a search-endpoint error
response (so if the search oracle contains no error response, no run is
fatal, whatever delete errors occur), and on that exit the error is logged
and the summary is emitted before the error is re-raised. -/
theorem claim6_error_propagation :
    (∀ (fuel : Nat) (cfg : Config) (rs : RunState) (ss : List SearchResp)
        (ds : List DeleteResp) (ex : ExitKind) (st : RunState)
        (tr : List Event) (e : Nat),
      loop cfg fuel rs ss ds = some (ex, st, tr) → ex = ExitKind.fatal e →
      SearchResp.err e ∈ ss
      ∧ ∃ tr1, tr = tr1
          ++ [Event.logEv (LogMsg.processingError e) true, Event.summary])
    ∧ (∀ (fuel : Nat) (cfg : Config) (rs : RunState) (ss : List SearchResp)
        (ds : List DeleteResp) (ex : ExitKind) (st : RunState)
        (tr : List Event),
      loop cfg fuel rs ss ds = some (ex, st, tr) →
      (∀ e : Nat, SearchResp.err e ∉ ss) →
      ∀ e : Nat, ex ≠ ExitKind.fatal e)
    ∧ (∀ (cfg : Config) (m : Message) (rs : RunState) (ds : List DeleteResp)
        (s : Nat) (rs' : RunState) (ds' : List DeleteResp) (evs : List Event),
      selectedFor cfg m → delOutcome ds = some (DeleteResp.err s) →
      processMessage cfg m rs ds = some (rs', ds', evs) →
      rs'.stats.failCount = rs.stats.failCount + 1
      ∧ rs'.stats.delCount = rs.stats.delCount
      ∧ Event.logEv (LogMsg.deleteError m.id s) true ∈ evs)
    ∧ (∀ (cfg : Config) (m : Message) (ms : List Message) (rs : RunState)
        (ds : List DeleteResp) (rs' : RunState) (ds' : List DeleteResp)
        (evs : List Event),
      processMessage cfg m rs ds = some (rs', ds', evs) →
      processGroup cfg (m :: ms) rs ds
        = (match processGroup cfg ms rs' ds' with
           | none => none
           | some (rs'', ds'', evs') => some (rs'', ds'', evs ++ evs'))) := by
  refine ⟨loop_fatal, ?_, ?_, ?_⟩
  · intro fuel cfg rs ss ds ex st tr h hnone e hfe
    exact hnone e (loop_fatal fuel cfg rs ss ds ex st tr e h hfe).1
  · intro cfg m rs ds s rs' ds' evs hsel hout h
    obtain ⟨dout, hd, hds, hcase⟩ := pm_sel cfg m rs ds hsel rs' ds' evs h
    obtain ⟨s1, s2, s3, s4, s5, s6, s7, s8⟩ :=
      del_state cfg m.id ds rs.stats rs.beforeMessageId dout hd
    cases hres : dout.result with
    | ok u =>
      cases u
      obtain ⟨ho1, _⟩ := s6 hres
      rw [hout] at ho1
      simp at ho1
    | error s' =>
      obtain ⟨ho1, hbef⟩ := s7 s' hres
      rw [hout] at ho1
      simp only [Option.some.injEq, DeleteResp.err.injEq] at ho1
      subst ho1
      rcases hcase with ⟨hok, _, _⟩ | ⟨s'', herr, hrs, hevs⟩
      · rw [hres] at hok
        simp at hok
      · rw [hres] at herr
        simp only [Except.error.injEq] at herr
        subst herr
        subst hrs
        subst hevs
        refine ⟨by simp [s2], by simp [s1], ?_⟩
        simp [List.mem_append]
  · intro cfg m ms rs ds rs' ds' evs h
    simp [processGroup, h]

/-- Witness for C6 at a concrete run whose first search fails with a 500:
the error response is in the oracle and the trace ends with the error log
followed by the summary. -/
theorem claim6_witness :
    SearchResp.err 500 ∈ [SearchResp.err 500]
    ∧ ∃ tr1, fatalRun.2.2 = tr1
        ++ [Event.logEv (LogMsg.processingError 500) true, Event.summary] := by
  exact claim6_error_propagation.1 1 cfgW ⟨initStats, none⟩
    [SearchResp.err 500] [] fatalRun.1 fatalRun.2.1 fatalRun.2.2 500
    (by rfl) (by rfl)

/-- Counterexample to claim C7 as stated: when the deletion session
re-raises an error, the top-level wrapper (line 308-310,
`run().catch(error => console.error('Fatal error:', error))`) does log it
to the console, but — having handled the rejection without calling
`process.exit` — the process exits with code 0, not a non-zero code. -/
theorem claim7_counterexample :
    (topLevel (SessionResult.raised 403)).1 = true
    ∧ (topLevel (SessionResult.raised 403)).2 = 0 :=
  ⟨rfl, rfl⟩

/-- Claim C7 (amended): the process always exits with code 0 — on the
fatal path exactly as on normal completion — and the `Fatal error:`
console log is emitted precisely when the session raised; every completed
loop (normal or fatal) prints the summary as its last event before the
wrapper runs. -/
theorem claim7_exit_code :
    (∀ r : SessionResult, (topLevel r).2 = 0
      ∧ ((topLevel r).1 = true ↔ ∃ s, r = SessionResult.raised s))
    ∧ (∀ (cfg : Config) (fuel : Nat) (ss : List SearchResp)
        (ds : List DeleteResp) (ex : ExitKind) (st : RunState)
        (tr : List Event),
      runMain cfg fuel ss ds = some (ex, st, tr) →
      tr.getLast? = some Event.summary) := by
  constructor
  · intro r
    cases r with
    | completed => exact ⟨rfl, by simp [topLevel]⟩
    | raised s => exact ⟨rfl, by simp [topLevel]⟩
  · intro cfg fuel ss ds ex st tr h
    unfold runMain at h
    cases hl : loop cfg fuel ⟨initStats, cfg.beforeMessageId0⟩ ss ds with
    | none => rw [hl] at h; simp at h
    | some z =>
      obtain ⟨ex0, st0, tr0⟩ := z
      rw [hl] at h
      dsimp only at h
      simp only [Option.some.injEq, Prod.mk.injEq] at h
      obtain ⟨hex, hst, htr⟩ := h
      subst htr
      have hrec := loop_end_summary fuel cfg ⟨initStats, cfg.beforeMessageId0⟩
        ss ds ex0 st0 tr0 hl
      have hne : tr0 ≠ [] := by
        intro hnil
        rw [hnil] at hrec
        simp at hrec
      rw [show Event.logEv LogMsg.sessionStart false :: tr0
          = [Event.logEv LogMsg.sessionStart false] ++ tr0 from rfl]
      rw [List.getLast?_append_of_ne_nil _ hne]
      exact hrec

/-- Witness for C7 (amended) at the concrete zero-result run. -/
theorem claim7_witness : zeroRun.2.2.getLast? = some Event.summary := by
  exact claim7_exit_code.2 cfgW 1 [SearchResp.ok ⟨0, []⟩] []
    zeroRun.1 zeroRun.2.1 zeroRun.2.2 (by rfl)

/-- Counterexample to claim C8 as stated: with every required
configuration value absent (all `none`, i.e. every `process.env` variable
undefined), the deletion session still starts and completes, and a search
request is issued — the non-null assertions at lines 294-296 perform no
runtime check and the constructor (lines 51-56) performs no validation. -/
theorem claim8_counterexample :
    (runMain ⟨none, none, none, none⟩ 1 [SearchResp.ok ⟨0, []⟩] []).isSome
      = true
    ∧ absentRun.2.2.any Event.isSearchReq = true := by
  exact ⟨rfl, rfl⟩

/-- Claim C8 (amended): absent configuration values are not validated at
startup: for every environment — including ones with any or all required
values missing — every completed run issues at least one search request;
no configuration error path exists. -/
theorem claim8_no_validation :
    ∀ (env : Config) (fuel : Nat) (ss : List SearchResp)
      (ds : List DeleteResp) (ex : ExitKind) (st : RunState) (tr : List Event),
      runMain env fuel ss ds = some (ex, st, tr) →
      tr.any Event.isSearchReq = true := by
  intro env fuel ss ds ex st tr h
  unfold runMain at h
  cases hl : loop env fuel ⟨initStats, env.beforeMessageId0⟩ ss ds with
  | none => rw [hl] at h; simp at h
  | some z =>
    obtain ⟨ex0, st0, tr0⟩ := z
    rw [hl] at h
    dsimp only at h
    simp only [Option.some.injEq, Prod.mk.injEq] at h
    obtain ⟨hex, hst, htr⟩ := h
    subst htr
    have hrec := loop_search_issued fuel env ⟨initStats, env.beforeMessageId0⟩
      ss ds ex0 st0 tr0 hl
    simp [hrec]

/-- Witness for C8 (amended) at a concrete fully-configured run. -/
theorem claim8_witness : zeroRun.2.2.any Event.isSearchReq = true := by
  exact claim8_no_validation cfgW 1 [SearchResp.ok ⟨0, []⟩] []
    zeroRun.1 zeroRun.2.1 zeroRun.2.2 (by rfl)

/-- Counterexample to claim C9 as stated: in this run the only search
result has `total_results = 0`, yet `grandTotal` is assigned (the latch at
lines 226-229 fires, because `!this.stats.grandTotal` is true) with the
value 0 — an assignment that does not come from any non-zero SearchResult
(none exists in the run, and a value taken from a non-zero result would be
non-zero). -/
theorem claim9_counterexample :
    zeroRun.2.2.filterMap Event.latchVal = [0]
    ∧ zeroRun.2.1.stats.grandTotal = 0 := by
  exact ⟨rfl, rfl⟩

/-- Claim C9 (amended): `grandTotal` is assigned exactly once per run —
from the first completed SearchResult's `total_results`, whether zero or
not (the latch-event list equals the first element of the completed-search
totals) — is never assigned when no search completes, and is never revised
by any later search result: the final `grandTotal` equals the first
completed search's total (0 if none). -/
theorem claim9_latch_once :
    ∀ (cfg : Config) (fuel : Nat) (ss : List SearchResp)
      (ds : List DeleteResp) (ex : ExitKind) (st : RunState) (tr : List Event),
      runMain cfg fuel ss ds = some (ex, st, tr) →
      tr.filterMap Event.latchVal = (tr.filterMap Event.searchOkVal).take 1
      ∧ st.stats.grandTotal
          = ((tr.filterMap Event.searchOkVal).head?).getD 0 := by
  intro cfg fuel ss ds ex st tr h
  unfold runMain at h
  cases hl : loop cfg fuel ⟨initStats, cfg.beforeMessageId0⟩ ss ds with
  | none => rw [hl] at h; simp at h
  | some z =>
    obtain ⟨ex0, st0, tr0⟩ := z
    rw [hl] at h
    dsimp only at h
    simp only [Option.some.injEq, Prod.mk.injEq] at h
    obtain ⟨hex, hst, htr⟩ := h
    subst hst
    subst htr
    have hrec := loop_latch0 fuel cfg ⟨initStats, cfg.beforeMessageId0⟩
      ss ds ex0 st0 tr0 rfl hl
    simpa [Event.latchVal, Event.searchOkVal] using hrec

/-- Witness for C9 (amended) at the concrete zero-result run. -/
theorem claim9_witness :
    zeroRun.2.2.filterMap Event.latchVal
      = (zeroRun.2.2.filterMap Event.searchOkVal).take 1 := by
  exact (claim9_latch_once cfgW 1 [SearchResp.ok ⟨0, []⟩] []
    zeroRun.1 zeroRun.2.1 zeroRun.2.2 (by rfl)).1

/-- Claim C10: for a deletion attempt that ends in a non-retryable failure
(the first non-429 delete response is an error), the cursor
`beforeMessageId` and the deleted counter `delCount` keep exactly the
values they had before the attempt; among the run statistics only the
failed-deletion counter changes, by exactly +1, apart from the throttle
counters which grow by exactly the number of intermediate 429 rounds and
the sum of their `retry_after` durations. -/
theorem claim10_frame (cfg : Config) (m : Message) (rs : RunState)
    (ds : List DeleteResp) (s : Nat) (rs' : RunState) (ds' : List DeleteResp)
    (evs : List Event)
    (hsel : selectedFor cfg m)
    (hout : delOutcome ds = some (DeleteResp.err s))
    (h : processMessage cfg m rs ds = some (rs', ds', evs)) :
    rs'.beforeMessageId = rs.beforeMessageId
    ∧ rs'.stats.delCount = rs.stats.delCount
    ∧ rs'.stats.failCount = rs.stats.failCount + 1
    ∧ rs'.stats.grandTotal = rs.stats.grandTotal
    ∧ rs'.stats.throttledCount = rs.stats.throttledCount + leading429 ds
    ∧ rs'.stats.throttledTotalTime
        = rs.stats.throttledTotalTime + leading429Time ds := by
  obtain ⟨dout, hd, hds, hcase⟩ := pm_sel cfg m rs ds hsel rs' ds' evs h
  obtain ⟨s1, s2, s3, s4, s5, s6, s7, s8⟩ :=
    del_state cfg m.id ds rs.stats rs.beforeMessageId dout hd
  cases hres : dout.result with
  | ok u =>
    cases u
    obtain ⟨ho1, _⟩ := s6 hres
    rw [hout] at ho1
    simp at ho1
  | error s' =>
    obtain ⟨ho1, hbef⟩ := s7 s' hres
    rw [hout] at ho1
    simp only [Option.some.injEq, DeleteResp.err.injEq] at ho1
    subst ho1
    rcases hcase with ⟨hok, _, _⟩ | ⟨s'', herr, hrs, hevs⟩
    · rw [hres] at hok
      simp at hok
    · subst hrs
      exact ⟨by simp [hbef], by simp [s1], by simp [s2], by simp [s3],
        by simp [s4], by simp [s5]⟩

/-- Witness for C10 at a concrete failed deletion (one 429 round of 50ms,
then a 403). -/
theorem claim10_witness :
    pmFailRes.1.stats.failCount = 1
    ∧ pmFailRes.1.stats.delCount = 0
    ∧ pmFailRes.1.stats.throttledCount = 1
    ∧ pmFailRes.1.stats.throttledTotalTime = 50
    ∧ pmFailRes.1.beforeMessageId = none := by
  have h := claim10_frame cfgW mOk ⟨initStats, none⟩
    [DeleteResp.d429 50, DeleteResp.err 403] 403
    pmFailRes.1 pmFailRes.2.1 pmFailRes.2.2 (by decide) (by rfl) (by rfl)
  exact ⟨h.2.2.1.trans rfl, h.2.1.trans rfl, h.2.2.2.2.1.trans rfl,
    h.2.2.2.2.2.trans rfl, h.1.trans rfl⟩

end MessageDeleter
